import Mathlib

/-!
# Verification of the `pic-editor` Tibia `.pic` codec

Shallow embedding of `src/parsers/pic_parser.py` and `src/models/pic.py`:
the RLE tile codec (`decode_sprite` / `encode_sprite`), the archive reader
(`_parse` / `_parse_image`), the archive writer (`_compile` /
`_calculate_total_size`) and the editing entry point
(`update_image_from_pil`).

Modelling conventions:
* Python `bytes` / `bytearray` values are `List Nat` (each element a byte
  value; range checks appear exactly where the Python runtime performs
  them).
* Python exceptions are an explicit `PyErr` result in `Except`:
  `PicParserError` is `formatError`, `UnsupportedVersionError` is
  `unsupportedVersion`, and the built-in `IndexError`, `struct.error` and
  `ValueError` that the interpreter itself can raise are `indexError`,
  `structError` and `valueError`.
* PIL RGBA images are total pixel functions `Nat → Nat → RGBA` indexed
  `(x, y)` like `pixels[x, y]`; PIL guarantees the mode/size conversions
  performed at the top of `encode_sprite`, so the embedded codec takes the
  already-converted 32×32 RGBA function.
* Python `while` loops are fuel-indexed structural recursions.  The fuel
  chosen at each call site (`data.length` outer decode iterations, `1024`
  encode iterations, the run/chunk counts for the inner loops) is provably
  at least the number of iterations the Python loop performs, because each
  decode iteration advances `pos` by at least 4 and each encode iteration
  consumes at least one of the 1024 pixels; when fuel runs out the loop
  guard is already false, so the fuelled function agrees with the loop.
-/

namespace PicEditor

/-- `SPRITE_SIZE` from `src/models/pic.py`: tiles are 32×32 pixels. -/
def SPRITE_SIZE : Nat := 32

/-- One RGBA pixel (each component a byte value, alpha included). -/
structure RGBA where
  r : Nat
  g : Nat
  b : Nat
  a : Nat
deriving DecidableEq, Repr

/-- An RGB background color, Python tuple `(r, g, b)`. -/
structure RGB where
  r : Nat
  g : Nat
  b : Nat
deriving DecidableEq, Repr

/-- The fully transparent pixel `(0, 0, 0, 0)` used to initialise decode. -/
def transparent : RGBA := ⟨0, 0, 0, 0⟩

/-- `Sprite` from `src/models/pic.py`: one tile's RLE payload. -/
structure Sprite where
  pixel_data : List Nat
deriving DecidableEq, Repr

/-- `PicImage` from `src/models/pic.py`.  `cached_image` models the
`_cached_image` field (the lazily rendered pixel buffer). -/
structure PicImage where
  width : Nat
  height : Nat
  bg_color : RGB
  sprites : List Sprite
  cached_image : Option (List RGBA) := none
  modified : Bool := false
deriving DecidableEq, Repr

/-- `PicImage.num_sprites`: `width * height`. -/
def PicImage.num_sprites (img : PicImage) : Nat := img.width * img.height

/-- `PicImage.pixel_width`: `width * SPRITE_SIZE`. -/
def PicImage.pixel_width (img : PicImage) : Nat := img.width * SPRITE_SIZE

/-- `PicImage.pixel_height`: `height * SPRITE_SIZE`. -/
def PicImage.pixel_height (img : PicImage) : Nat := img.height * SPRITE_SIZE

/-- `Pic` from `src/models/pic.py` (the archive).  The bookkeeping
`file_path` string plays no role in any codec operation and is omitted. -/
structure Pic where
  signature : Nat
  images : List PicImage
deriving DecidableEq, Repr

/-- `Pic.num_images`: `len(self.images)`. -/
def Pic.num_images (pic : Pic) : Nat := pic.images.length

/-- The failure outcomes of the Python code: the two parser exception
classes declared in `pic_parser.py`, plus the interpreter-raised
`IndexError`, `struct.error` and `ValueError`. -/
inductive PyErr where
  | formatError
  | unsupportedVersion
  | indexError
  | structError
  | valueError
deriving DecidableEq, Repr

/-- `PicParser.OLD_SIGNATURE = 0x1fd0302`. -/
def OLD_SIGNATURE : Nat := 0x1fd0302

/-! ## Tile codec: `decode_sprite` -/

/-- Cursor advance shared by the codec loops: `x += 1; if x >= 32: x = 0;
y += 1`. -/
def advance (x y : Nat) : Nat × Nat :=
  if x + 1 ≥ SPRITE_SIZE then (0, y + 1) else (x + 1, y)

/-- The background-fill inner loop of `decode_sprite`
(`for _ in range(bg_pixels)`): writes `(bg, 255)` raster pixels, stopping
if the canvas is full.  Returns the updated grid and cursor. -/
def fillBg (bg : RGB) : Nat → List RGBA → Nat → Nat → List RGBA × Nat × Nat
  | 0, grid, x, y => (grid, x, y)
  | n + 1, grid, x, y =>
    if y ≥ SPRITE_SIZE then (grid, x, y)
    else
      let grid' := grid.set (y * SPRITE_SIZE + x) ⟨bg.r, bg.g, bg.b, 255⟩
      let xy := advance x y
      fillBg bg n grid' xy.1 xy.2

/-- The colored-pixel inner loop of `decode_sprite`
(`for _ in range(colored_pixels)`): reads 3 raw bytes per pixel, stopping
if the canvas is full or fewer than 3 bytes remain (the latter is the
truncation early-stop, reported in the final `Bool`).  Returns the grid,
the new byte position, the cursor, and the truncation flag. -/
def fillColored (data : List Nat) :
    Nat → List RGBA → Nat → Nat → Nat → List RGBA × Nat × Nat × Nat × Bool
  | 0, grid, pos, x, y => (grid, pos, x, y, false)
  | n + 1, grid, pos, x, y =>
    if y ≥ SPRITE_SIZE then (grid, pos, x, y, false)
    else if pos + 3 > data.length then (grid, pos, x, y, true)
    else
      let r := data.getD pos 0
      let g := data.getD (pos + 1) 0
      let b := data.getD (pos + 2) 0
      let grid' := grid.set (y * SPRITE_SIZE + x) ⟨r, g, b, 255⟩
      let xy := advance x y
      fillColored data n grid' (pos + 3) xy.1 xy.2

/-- The outer `while pos < len(data) and y < SPRITE_SIZE` loop of
`decode_sprite`.  Each iteration consumes a 4-byte little-endian chunk
header (`bg_pixels`, `colored_pixels`) and runs the two inner fills.
Returns the grid, the final byte position, and whether any truncation
early-stop (header or mid-pixel) was hit. -/
def decodeLoop (data : List Nat) (bg : RGB) :
    Nat → List RGBA → Nat → Nat → Nat → List RGBA × Nat × Bool
  | 0, grid, pos, _, _ => (grid, pos, false)
  | fuel + 1, grid, pos, x, y =>
    if pos < data.length ∧ y < SPRITE_SIZE then
      if pos + 4 > data.length then (grid, pos, true)
      else
        let bg_pixels := data.getD pos 0 + 256 * data.getD (pos + 1) 0
        let colored_pixels := data.getD (pos + 2) 0 + 256 * data.getD (pos + 3) 0
        let s1 := fillBg bg bg_pixels grid x y
        let s2 := fillColored data colored_pixels s1.1 (pos + 4) s1.2.1 s1.2.2
        let s3 := decodeLoop data bg fuel s2.1 s2.2.1 s2.2.2.1 s2.2.2.2.1
        (s3.1, s3.2.1, s2.2.2.2.2 || s3.2.2)
    else (grid, pos, false)

/-- `PicParser.decode_sprite`: decodes one tile payload to a 32×32 RGBA
raster (raster index `y * 32 + x`), starting from an all-transparent
canvas.  The fuel `data.length` dominates the outer iteration count since
every iteration advances `pos` by at least 4 (see the header comment). -/
def decode_sprite (sprite : Sprite) (bg_color : RGB) : List RGBA :=
  let img := List.replicate (SPRITE_SIZE * SPRITE_SIZE) transparent
  let data := sprite.pixel_data
  if data = [] then img
  else (decodeLoop data bg_color data.length img 0 0 0).1

/-- Full decode state (final position and truncation flag included). -/
def decodeSpriteFull (sprite : Sprite) (bg_color : RGB) :
    List RGBA × Nat × Bool :=
  let img := List.replicate (SPRITE_SIZE * SPRITE_SIZE) transparent
  let data := sprite.pixel_data
  if data = [] then (img, 0, false)
  else decodeLoop data bg_color data.length img 0 0 0

/-! ## Tile codec: `encode_sprite` -/

/-- A 32×32 RGBA PIL pixel buffer, accessed `pixels[x, y]`. -/
abbrev PixBuf := Nat → Nat → RGBA

/-- The background test of `encode_sprite`: transparent, or RGB exactly
equal to the background color. -/
def is_bg (px : RGBA) (bg : RGB) : Bool :=
  px.a == 0 || (px.r == bg.r && px.g == bg.g && px.b == bg.b)

/-- Little-endian `struct.pack('<H', n)` (the packed value is always in
range at the call sites: run lengths are at most 1024). -/
def u16le (n : Nat) : List Nat := [n % 256, n / 256 % 256]

/-- Little-endian 4 bytes of `n` (`struct.pack_into('<I', ...)`). -/
def u32le (n : Nat) : List Nat :=
  [n % 256, n / 256 % 256, n / 256 ^ 2 % 256, n / 256 ^ 3 % 256]

/-- The background-counting inner loop of `encode_sprite`
(`while pixel_count < total_pixels` until a non-background pixel): the
fuel is the number of pixels left, `1024 - pixel_count`.  Returns the run
length and the advanced cursor. -/
def bgRun (px : PixBuf) (bg : RGB) : Nat → Nat → Nat → Nat × Nat × Nat
  | 0, x, y => (0, x, y)
  | n + 1, x, y =>
    if is_bg (px x y) bg then
      let xy := advance x y
      let s := bgRun px bg n xy.1 xy.2
      (s.1 + 1, s.2.1, s.2.2)
    else (0, x, y)

/-- The colored-collecting inner loop of `encode_sprite`: gathers the raw
`[r, g, b]` bytes of a maximal non-background run.  Fuel as in `bgRun`. -/
def coloredRun (px : PixBuf) (bg : RGB) : Nat → Nat → Nat → List Nat × Nat × Nat
  | 0, x, y => ([], x, y)
  | n + 1, x, y =>
    if is_bg (px x y) bg then ([], x, y)
    else
      let p := px x y
      let xy := advance x y
      let s := coloredRun px bg n xy.1 xy.2
      (p.r :: p.g :: p.b :: s.1, s.2.1, s.2.2)

/-- The outer `while pixel_count < total_pixels` loop of `encode_sprite`:
each iteration emits one RLE chunk (4-byte header then the colored run's
raw bytes).  Fuel `1024` suffices because every iteration consumes at
least one pixel. -/
def encodeLoop (px : PixBuf) (bg : RGB) : Nat → Nat → Nat → Nat → List Nat
  | 0, _, _, _ => []
  | fuel + 1, x, y, pixel_count =>
    if pixel_count < SPRITE_SIZE * SPRITE_SIZE then
      let sb := bgRun px bg (SPRITE_SIZE * SPRITE_SIZE - pixel_count) x y
      let bg_count := sb.1
      let sc := coloredRun px bg
        (SPRITE_SIZE * SPRITE_SIZE - (pixel_count + bg_count)) sb.2.1 sb.2.2
      let colored_data := sc.1
      let colored_count := colored_data.length / 3
      u16le bg_count ++ u16le colored_count ++ colored_data ++
        encodeLoop px bg fuel sc.2.1 sc.2.2 (pixel_count + bg_count + colored_count)
    else []

/-- `PicParser.encode_sprite`: RLE-encodes a 32×32 RGBA buffer against a
background color. -/
def encode_sprite (px : PixBuf) (bg_color : RGB) : Sprite :=
  ⟨encodeLoop px bg_color (SPRITE_SIZE * SPRITE_SIZE) 0 0 0⟩

/-! ## Archive reader: `_parse` / `_parse_image` -/

/-- Python `data[pos]` on `bytes`: raises `IndexError` out of range. -/
def getItem (data : List Nat) (pos : Nat) : Except PyErr Nat :=
  if pos < data.length then .ok (data.getD pos 0) else .error .indexError

/-- `struct.unpack_from('<H', data, pos)`: raises `struct.error` when
fewer than 2 bytes remain. -/
def unpackU16 (data : List Nat) (pos : Nat) : Except PyErr Nat :=
  if pos + 2 ≤ data.length then
    .ok (data.getD pos 0 + 256 * data.getD (pos + 1) 0)
  else .error .structError

/-- `struct.unpack_from('<I', data, pos)`: raises `struct.error` when
fewer than 4 bytes remain. -/
def unpackU32 (data : List Nat) (pos : Nat) : Except PyErr Nat :=
  if pos + 4 ≤ data.length then
    .ok (data.getD pos 0 + 256 * data.getD (pos + 1) 0 +
      256 ^ 2 * data.getD (pos + 2) 0 + 256 ^ 3 * data.getD (pos + 3) 0)
  else .error .structError

/-- Python slice `data[a:b]` (never raises, clamps to the buffer). -/
def pySlice (data : List Nat) (a b : Nat) : List Nat :=
  ((data.drop a).take (b - a))

/-- The offset-reading loop of `_parse_image`
(`for _ in range(num_sprites)`): reads `n` consecutive `u32` offsets. -/
def readOffsets (data : List Nat) : Nat → Nat → Except PyErr (List Nat × Nat)
  | 0, pos => .ok ([], pos)
  | n + 1, pos => do
    let offset ← unpackU32 data pos
    let rest ← readOffsets data n (pos + 4)
    .ok (offset :: rest.1, rest.2)

/-- The sprite-reading loop of `_parse_image` (`for offset in
sprite_offsets`): at each offset reads a `u16` length then that many
payload bytes (Python's clamping slice). -/
def readSprites (data : List Nat) : List Nat → Except PyErr (List Sprite)
  | [] => .ok []
  | offset :: rest => do
    let sprite_size ← unpackU16 data offset
    let pixel_data := pySlice data (offset + 2) (offset + 2 + sprite_size)
    let tail ← readSprites data rest
    .ok (⟨pixel_data⟩ :: tail)

/-- `PicParser._parse_image`: one picture block (width, height, bg RGB,
offset table, then the tiles the offsets point at). -/
def parseImage (data : List Nat) (pos : Nat) : Except PyErr (PicImage × Nat) := do
  let width ← getItem data pos
  let height ← getItem data (pos + 1)
  let bg_r ← getItem data (pos + 2)
  let bg_g ← getItem data (pos + 3)
  let bg_b ← getItem data (pos + 4)
  let num_sprites := width * height
  let offs ← readOffsets data num_sprites (pos + 5)
  let sprites ← readSprites data offs.1
  .ok (⟨width, height, ⟨bg_r, bg_g, bg_b⟩, sprites, none, false⟩, offs.2)

/-- The image loop of `_parse` (`for i in range(num_images)`). -/
def parseImages (data : List Nat) : Nat → Nat → Except PyErr (List PicImage)
  | 0, _ => .ok []
  | n + 1, pos => do
    let r ← parseImage data pos
    let rest ← parseImages data n r.2
    .ok (r.1 :: rest)

/-- `PicParser._parse`: length check, signature, legacy-version check,
image count, then the pictures. -/
def parse (data : List Nat) : Except PyErr Pic := do
  if data.length < 6 then
    throw .formatError
  else
    let signature ← unpackU32 data 0
    if signature = OLD_SIGNATURE then
      throw .unsupportedVersion
    else
      let num_images ← unpackU16 data 4
      let images ← parseImages data num_images 6
      .ok ⟨signature, images⟩

/-! ## Archive writer: `_compile` / `_calculate_total_size` -/

/-- `PicParser._calculate_total_size`. -/
def calculateTotalSize (pic : Pic) : Nat :=
  pic.images.foldl
    (fun size img =>
      size + 5 + img.num_sprites * 4 +
        img.sprites.foldl (fun s sp => s + 2 + sp.pixel_data.length) 0)
    6

/-- `struct.pack_into('<H', buf, pos, v)`: raises `struct.error` when the
value does not fit a `u16` or fewer than 2 buffer bytes remain. -/
def packIntoU16 (buf : List Nat) (pos v : Nat) : Except PyErr (List Nat) :=
  if pos + 2 ≤ buf.length then
    if v < 2 ^ 16 then .ok ((buf.set pos (v % 256)).set (pos + 1) (v / 256 % 256))
    else .error .structError
  else .error .structError

/-- `struct.pack_into('<I', buf, pos, v)`: raises `struct.error` when the
value does not fit a `u32` or fewer than 4 buffer bytes remain. -/
def packIntoU32 (buf : List Nat) (pos v : Nat) : Except PyErr (List Nat) :=
  if pos + 4 ≤ buf.length then
    if v < 2 ^ 32 then
      .ok ((((buf.set pos (v % 256)).set (pos + 1) (v / 256 % 256)).set
        (pos + 2) (v / 256 ^ 2 % 256)).set (pos + 3) (v / 256 ^ 3 % 256))
    else .error .structError
  else .error .structError

/-- Python `bytearray` item assignment `buf[pos] = v`: `IndexError` out of
range, `ValueError` when `v` is not a byte. -/
def setByte (buf : List Nat) (pos v : Nat) : Except PyErr (List Nat) :=
  if pos < buf.length then
    if v < 256 then .ok (buf.set pos v) else .error .valueError
  else .error .indexError

/-- Python `bytearray` slice assignment `buf[a:b] = xs` (with a `bytes`
right-hand side this never raises; indices clamp and the buffer is
re-sized if the lengths differ, which never happens at the call site). -/
def setSlice (buf : List Nat) (a b : Nat) (xs : List Nat) : List Nat :=
  buf.take a ++ xs ++ buf.drop (max a b)

/-- The writer's cursor state: the output buffer, the header-region write
position `pos`, and the data-region cursor `sprite_data_pos`. -/
structure CState where
  buf : List Nat
  pos : Nat
  sdp : Nat
deriving Repr

/-- The per-sprite body of `_compile`'s inner loop: write the current data
cursor as the offset, then the `u16` length and the payload bytes at the
data cursor. -/
def compileSprite (st : CState) (sp : Sprite) : Except PyErr CState := do
  let buf ← packIntoU32 st.buf st.pos st.sdp
  let sprite_size := sp.pixel_data.length
  let buf ← packIntoU16 buf st.sdp sprite_size
  let buf := setSlice buf (st.sdp + 2) (st.sdp + 2 + sprite_size) sp.pixel_data
  .ok ⟨buf, st.pos + 4, st.sdp + 2 + sprite_size⟩

/-- The per-image body of `_compile`'s outer loop: width, height,
background color, then the sprite loop. -/
def compileImage (st : CState) (img : PicImage) : Except PyErr CState := do
  let buf ← setByte st.buf st.pos img.width
  let buf ← setByte buf (st.pos + 1) img.height
  let buf ← setByte buf (st.pos + 2) img.bg_color.r
  let buf ← setByte buf (st.pos + 3) img.bg_color.g
  let buf ← setByte buf (st.pos + 4) img.bg_color.b
  img.sprites.foldlM compileSprite ⟨buf, st.pos + 5, st.sdp⟩

/-- `PicParser._compile`: allocate `bytearray(total)`, write signature and
image count, compute the start of the data region, run the image loop,
and return `bytes(buffer[:sprite_data_pos])`. -/
def compile (pic : Pic) : Except PyErr (List Nat) := do
  let total := calculateTotalSize pic
  let buf ← packIntoU32 (List.replicate total 0) 0 pic.signature
  let buf ← packIntoU16 buf 4 pic.num_images
  let sprite_data_pos :=
    pic.images.foldl (fun p img => p + 5 + img.num_sprites * 4) 6
  let st ← pic.images.foldlM compileImage ⟨buf, 6, sprite_data_pos⟩
  .ok (st.buf.take st.sdp)

/-! ## The canonical layout (spec §4.3 / §6) and logical equality

`layoutBytes` is the reference description of the Writer's output: all
picture header blocks (width, height, bg, offset table) contiguously
after the 6-byte file header, then all length-prefixed tile records
contiguously in picture order and raster order, with each offset equal to
the absolute position of its tile record.  It is used to state the
canonical-layout claim and as the intermediate result of the round-trip
proof. -/

/-- Total byte size of the length-prefixed tile records of one sprite
list. -/
def spriteDataSize (sprites : List Sprite) : Nat :=
  sprites.foldl (fun s sp => s + 2 + sp.pixel_data.length) 0

/-- Size of the file header plus all picture header blocks — where the
data region begins (`sprite_data_pos` before `_compile`'s image loop). -/
def headerSize (pic : Pic) : Nat :=
  pic.images.foldl (fun p img => p + 5 + img.num_sprites * 4) 6

/-- One picture's offset table: consecutive absolute data-cursor values,
the cursor advancing by each tile record's size. -/
def offsetsBytes : Nat → List Sprite → List Nat
  | _, [] => []
  | c, sp :: rest => u32le c ++ offsetsBytes (c + 2 + sp.pixel_data.length) rest

/-- One picture's tile records: `u16` length then the payload, in raster
order. -/
def dataBytes : List Sprite → List Nat
  | [] => []
  | sp :: rest => u16le sp.pixel_data.length ++ sp.pixel_data ++ dataBytes rest

/-- All picture header blocks, threading the data cursor. -/
def headersBytes : Nat → List PicImage → List Nat
  | _, [] => []
  | c, img :: rest =>
    img.width :: img.height :: img.bg_color.r :: img.bg_color.g :: img.bg_color.b ::
      (offsetsBytes c img.sprites ++ headersBytes (c + spriteDataSize img.sprites) rest)

/-- All tile records of all pictures, in picture order. -/
def allDataBytes : List PicImage → List Nat
  | [] => []
  | img :: rest => dataBytes img.sprites ++ allDataBytes rest

/-- The canonical serialized archive. -/
def layoutBytes (pic : Pic) : List Nat :=
  u32le pic.signature ++ u16le pic.num_images ++
    headersBytes (headerSize pic) pic.images ++ allDataBytes pic.images

/-- The absolute positions of one picture's tile records (the values its
offset table holds), starting at data cursor `c`. -/
def offsList : Nat → List Sprite → List Nat
  | _, [] => []
  | c, sp :: rest => c :: offsList (c + 2 + sp.pixel_data.length) rest

/-- The absolute positions of every tile record of every picture, in
picture order then raster order. -/
def allOffs : Nat → List PicImage → List Nat
  | _, [] => []
  | c, img :: rest =>
    offsList c img.sprites ++ allOffs (c + spriteDataSize img.sprites) rest

/-- Logical equality of pictures: same dimensions, background and tile
payloads (the transient cache and modified flag are not compared). -/
def imgEq (a b : PicImage) : Prop :=
  a.width = b.width ∧ a.height = b.height ∧
    a.bg_color = b.bg_color ∧ a.sprites = b.sprites

/-- Logical equality of archives: same signature and pointwise logically
equal pictures. -/
def picEq (a b : Pic) : Prop :=
  a.signature = b.signature ∧ List.Forall₂ imgEq a.images b.images

/-! ## Strict chunk grammar (spec §4.1, well-formed payloads) -/

/-- Strict parse of a payload into RLE chunks: each chunk is a full
4-byte header followed by exactly `colored_count * 3` raw bytes, with
nothing left over.  Returns the list of `(bg_count, colored bytes)`
pairs, or `none` if the payload is not such a concatenation. -/
def chunks : List Nat → Option (List (Nat × List Nat))
  | [] => some []
  | b0 :: b1 :: c0 :: c1 :: rest =>
    let colored := c0 + 256 * c1
    if 3 * colored ≤ rest.length then
      match chunks (rest.drop (3 * colored)) with
      | some cs => some ((b0 + 256 * b1, rest.take (3 * colored)) :: cs)
      | none => none
    else none
  | _ => none
termination_by l => l.length
decreasing_by simp [List.length_drop]; omega

/-- Pixels covered by a chunk list (background runs plus colored runs). -/
def chunksPixels (cs : List (Nat × List Nat)) : Nat :=
  cs.foldl (fun s c => s + c.1 + c.2.length / 3) 0

/-- The pixel a decoded background run writes. -/
def bgPixel (bg : RGB) : RGBA := ⟨bg.r, bg.g, bg.b, 255⟩

/-- Raster-order view of a 32×32 pixel buffer
(index `i` is `pixels[i % 32, i / 32]`). -/
def raster (px : PixBuf) (i : Nat) : RGBA :=
  px (i % SPRITE_SIZE) (i / SPRITE_SIZE)

/-- The raw RGB bytes of `m` raster-consecutive pixels starting at
raster index `pc` (what a colored run of length `m` stores). -/
def coloredBytes (px : PixBuf) : Nat → Nat → List Nat
  | _, 0 => []
  | pc, m + 1 =>
    (raster px pc).r :: (raster px pc).g :: (raster px pc).b ::
      coloredBytes px (pc + 1) m

/-- What one decode∘encode round trip leaves at raster index `i`
(spec §4.1): the opaque background color where the source pixel was
background-classified, otherwise the source pixel's RGB at alpha 255. -/
def expectedPix (px : PixBuf) (bg : RGB) (i : Nat) : RGBA :=
  if is_bg (raster px i) bg then bgPixel bg
  else ⟨(raster px i).r, (raster px i).g, (raster px i).b, 255⟩

/-! ## Editing entry point: `update_image_from_pil` -/

/-- A PIL source image: its `size` and its pixel access. -/
structure PILImage where
  width : Nat
  height : Nat
  px : PixBuf

/-- `pil_image.crop((x0, y0, x0 + 32, y0 + 32))` as a pixel function. -/
def PILImage.crop (im : PILImage) (x0 y0 : Nat) : PixBuf :=
  fun x y => im.px (x0 + x) (y0 + y)

/-- `PicParser.update_image_from_pil`: size check (`ValueError` on
mismatch, raised before any mutation), then re-encode every 32×32 region
in raster order, replace the sprite list, and `invalidate_cache()`
(which clears `_cached_image` and sets `modified`). -/
def update_image_from_pil (img : PicImage) (pil : PILImage) :
    Except PyErr PicImage :=
  if (pil.width, pil.height) ≠ (img.pixel_width, img.pixel_height) then
    .error .valueError
  else
    let sprites := (List.range img.height).flatMap fun row =>
      (List.range img.width).map fun col =>
        encode_sprite (pil.crop (col * SPRITE_SIZE) (row * SPRITE_SIZE)) img.bg_color
    .ok { img with sprites := sprites, cached_image := none, modified := true }

/-- `C` occurs as a contiguous segment of `B` starting at position `p`. -/
def SegAt (B : List Nat) (p : Nat) (C : List Nat) : Prop :=
  ∃ A D, B = A ++ C ++ D ∧ A.length = p

/-- A small concrete archive (one 1×1 picture, one 2-byte tile payload)
used to instantiate the universally quantified theorems. -/
def picA : Pic :=
  ⟨7, [⟨1, 1, ⟨255, 0, 255⟩, [⟨[9, 8]⟩], none, false⟩]⟩

/-- Decidable equality of `Except` results, for concrete evaluations. -/
instance {ε α : Type} [DecidableEq ε] [DecidableEq α] : DecidableEq (Except ε α)
  | .ok a, .ok b => decidable_of_iff (a = b) (by simp)
  | .ok _, .error _ => .isFalse (by simp)
  | .error _, .ok _ => .isFalse (by simp)
  | .error e, .error f => decidable_of_iff (e = f) (by simp)

/-! ## Reader error claims (C3, C4) -/

/-- C3: the spec says parsing failures surface as FormatError (with
UnsupportedVersionError as the distinguished sub-case), and `load`'s own
docstring promises `PicParserError` on parse errors; but on a buffer
truncated inside a picture header the code's `data[pos]` raises the
interpreter's `IndexError` instead, which is not a `PicParserError`. -/
theorem c3_parse_truncated_header_raises_builtin_error :
    parse [1, 0, 0, 0, 1, 0] = .error .indexError ∧
      parse [1, 0, 0, 0, 1, 0] ≠ .error .formatError ∧
      parse [1, 0, 0, 0, 1, 0] ≠ .error .unsupportedVersion := by
  decide

/-- C4 (counterexample): the 5-byte buffer whose first 4 bytes are the
little-endian legacy signature fails the minimum-length check first, so
it raises FormatError, not UnsupportedVersionError as the claim states
for every buffer beginning with the legacy signature. -/
theorem c4_short_legacy_buffer_gets_formatError :
    parse [0x02, 0x03, 0xFD, 0x01, 0x00] = .error .formatError ∧
      parse [0x02, 0x03, 0xFD, 0x01, 0x00] ≠ .error .unsupportedVersion := by
  decide

/-- C4 (amended): every buffer shorter than 6 bytes fails with
FormatError; every buffer of length at least 6 whose first 4 bytes are
the little-endian encoding of `0x01FD0302` fails with
UnsupportedVersionError, irrespective of the bytes from offset 4 on. -/
theorem c4_too_small_and_legacy_signature (data : List Nat) :
    (data.length < 6 → parse data = .error .formatError) ∧
    (6 ≤ data.length → data.take 4 = [0x02, 0x03, 0xFD, 0x01] →
      parse data = .error .unsupportedVersion) := by
  constructor
  · intro h
    simp only [parse, if_pos h]
    rfl
  · intro h6 htake
    have hdata : data = 0x02 :: 0x03 :: 0xFD :: 0x01 :: data.drop 4 := by
      conv_lhs => rw [← List.take_append_drop 4 data]
      rw [htake]
      rfl
    rw [hdata]
    have hnot : ¬ ((0x02 :: 0x03 :: 0xFD :: 0x01 :: data.drop 4).length < 6) := by
      rw [← hdata]
      omega
    simp only [parse, if_neg hnot]
    have hu : unpackU32 (0x02 :: 0x03 :: 0xFD :: 0x01 :: data.drop 4) 0 =
        .ok OLD_SIGNATURE := by
      have hle : 0 + 4 ≤ (0x02 :: 0x03 :: 0xFD :: 0x01 :: data.drop 4).length := by
        simp only [List.length_cons]
        omega
      simp only [unpackU32, if_pos hle]
      norm_num [List.getD, OLD_SIGNATURE]
    rw [hu]
    rfl

/-- C4 (witness): both hypotheses of the amended claim are realisable. -/
theorem c4_too_small_and_legacy_signature_witness :
    parse [0] = .error .formatError ∧
      parse [0x02, 0x03, 0xFD, 0x01, 0x00, 0x00] = .error .unsupportedVersion :=
  ⟨(c4_too_small_and_legacy_signature [0]).1 (by decide),
    (c4_too_small_and_legacy_signature [0x02, 0x03, 0xFD, 0x01, 0x00, 0x00]).2
      (by decide) (by decide)⟩

/-! ## Concrete decode scenario (C9) -/

/-- C9: decoding `00 00 04 00` followed by four RGB triplets yields the
four triplets at raster positions 0–3 with alpha 255 and leaves the
remaining 1020 pixels fully transparent (for every background color and
all triplet byte values, distinct or not). -/
theorem c9_decode_header_and_four_triplets (bg : RGB)
    (r0 g0 b0 r1 g1 b1 r2 g2 b2 r3 g3 b3 : Nat) :
    decode_sprite ⟨[0, 0, 4, 0, r0, g0, b0, r1, g1, b1, r2, g2, b2, r3, g3, b3]⟩ bg =
      ⟨r0, g0, b0, 255⟩ :: ⟨r1, g1, b1, 255⟩ :: ⟨r2, g2, b2, 255⟩ ::
        ⟨r3, g3, b3, 255⟩ :: List.replicate 1020 transparent := by
  rfl

/-! ## Writer counterexamples (C2, C7) -/

/-- C2 (counterexample): this archive satisfies every hypothesis the
claim states (signature 3 fits a uint32 and is not the legacy sentinel,
one picture, width = height = 1, exactly one tile, empty payload), yet
serialization raises `ValueError` when writing the background component
300 into the byte buffer, so no bytes are produced and the round trip
fails. -/
theorem c2_roundtrip_fails_nonbyte_background :
    ¬ ∃ buf pic', compile ⟨3, [⟨1, 1, ⟨300, 0, 0⟩, [⟨[]⟩], none, false⟩]⟩ = .ok buf ∧
      parse buf = .ok pic' ∧
      picEq ⟨3, [⟨1, 1, ⟨300, 0, 0⟩, [⟨[]⟩], none, false⟩]⟩ pic' := by
  rintro ⟨buf, pic', hc, -, -⟩
  rw [show compile ⟨3, [⟨1, 1, ⟨300, 0, 0⟩, [⟨[]⟩], none, false⟩]⟩ =
    .error .valueError by decide] at hc
  exact Except.noConfusion hc

/-- C7 (counterexample): this archive has exactly `width*height` tiles as
the claim requires, yet serialization raises `ValueError` on the
background component 256, so it does not produce a buffer of the stated
length (or any buffer at all). -/
theorem c7_size_fails_nonbyte_background :
    ¬ ∃ buf, compile ⟨0, [⟨1, 1, ⟨256, 0, 0⟩, [⟨[]⟩], none, false⟩]⟩ = .ok buf ∧
      buf.length = 6 + (5 + 4 * 1) + (2 + 0) := by
  rintro ⟨buf, hc, -⟩
  rw [show compile ⟨0, [⟨1, 1, ⟨256, 0, 0⟩, [⟨[]⟩], none, false⟩]⟩ =
    .error .valueError by decide] at hc
  exact Except.noConfusion hc

/-! ## Decode safety (C5) -/

theorem all_set {α : Type} (p : α → Bool) (l : List α) (i : Nat) (v : α)
    (hl : l.all p) (hv : p v) : (l.set i v).all p := by
  induction l generalizing i with
  | nil => simp [List.set]
  | cons a t ih =>
    cases i with
    | zero => simp_all [List.set]
    | succ i =>
      simp only [List.set, List.all_cons, Bool.and_eq_true] at hl ⊢
      exact ⟨hl.1, ih i hl.2⟩

theorem all_replicate {α : Type} (p : α → Bool) (n : Nat) (v : α) (hv : p v) :
    (List.replicate n v).all p := by
  induction n with
  | zero => rfl
  | succ n ih => simp_all [List.replicate]

theorem fillBg_length (bg : RGB) (n : Nat) (g : List RGBA) (x y : Nat) :
    ((fillBg bg n g x y).1).length = g.length := by
  induction n generalizing g x y with
  | zero => rfl
  | succ n ih =>
    rw [fillBg]
    split
    · rfl
    · rw [ih]
      exact List.length_set ..

theorem fillColored_length (data : List Nat) (n : Nat) (g : List RGBA)
    (pos x y : Nat) : ((fillColored data n g pos x y).1).length = g.length := by
  induction n generalizing g pos x y with
  | zero => rfl
  | succ n ih =>
    rw [fillColored]
    split
    · rfl
    · split
      · rfl
      · rw [ih]
        exact List.length_set ..

theorem decodeLoop_length (data : List Nat) (bg : RGB) (fuel : Nat)
    (g : List RGBA) (pos x y : Nat) :
    ((decodeLoop data bg fuel g pos x y).1).length = g.length := by
  induction fuel generalizing g pos x y with
  | zero => rfl
  | succ fuel ih =>
    rw [decodeLoop]
    split
    · split
      · rfl
      · rw [ih]
        rw [fillColored_length, fillBg_length]
    · rfl

theorem fillBg_all (p : RGBA → Bool) (bg : RGB)
    (hp : ∀ r g b : Nat, p ⟨r, g, b, 255⟩) (n : Nat) (g : List RGBA)
    (x y : Nat) (hg : g.all p) : ((fillBg bg n g x y).1).all p := by
  induction n generalizing g x y with
  | zero => exact hg
  | succ n ih =>
    rw [fillBg]
    split
    · exact hg
    · exact ih _ _ _ (all_set _ _ _ _ hg (hp ..))

theorem fillColored_all (p : RGBA → Bool) (data : List Nat)
    (hp : ∀ r g b : Nat, p ⟨r, g, b, 255⟩) (n : Nat) (g : List RGBA)
    (pos x y : Nat) (hg : g.all p) :
    ((fillColored data n g pos x y).1).all p := by
  induction n generalizing g pos x y with
  | zero => exact hg
  | succ n ih =>
    rw [fillColored]
    split
    · exact hg
    · split
      · exact hg
      · exact ih _ _ _ _ (all_set _ _ _ _ hg (hp ..))

theorem decodeLoop_all (p : RGBA → Bool) (data : List Nat) (bg : RGB)
    (hp : ∀ r g b : Nat, p ⟨r, g, b, 255⟩) (fuel : Nat) (g : List RGBA)
    (pos x y : Nat) (hg : g.all p) :
    ((decodeLoop data bg fuel g pos x y).1).all p := by
  induction fuel generalizing g pos x y with
  | zero => exact hg
  | succ fuel ih =>
    rw [decodeLoop]
    split
    · split
      · exact hg
      · exact ih _ _ _ _ (fillColored_all p data hp _ _ _ _ _
          (fillBg_all p bg hp _ _ _ _ hg))
    · exact hg

/-- C5: `decode_sprite` is a total function on arbitrary payloads
(including truncated ones): it always yields a full 32×32 = 1024-pixel
canvas, every pixel of which is either still fully transparent (never
written) or written opaque with alpha 255, and the empty payload decodes
to the all-transparent tile. -/
theorem c5_decode_total_and_lenient (sprite : Sprite) (bg_color : RGB) :
    (decode_sprite sprite bg_color).length = SPRITE_SIZE * SPRITE_SIZE ∧
    ((decode_sprite sprite bg_color).all
      fun q => q == transparent || q.a == 255) = true ∧
    decode_sprite ⟨[]⟩ bg_color =
      List.replicate (SPRITE_SIZE * SPRITE_SIZE) transparent := by
  refine ⟨?_, ?_, rfl⟩
  · rw [decode_sprite]
    split
    · exact List.length_replicate ..
    · rw [decodeLoop_length]
      exact List.length_replicate ..
  · rw [decode_sprite]
    split
    · exact all_replicate _ _ _ rfl
    · exact decodeLoop_all _ _ _ (fun _ _ _ => by simp) _ _ _ _ _
        (all_replicate _ _ _ rfl)

/-! ## Codec round trip: encode-side run lemmas -/

theorem sprite_size_eq : SPRITE_SIZE = 32 := rfl

theorem advance_spec (x y : Nat) (h : x < 32) :
    32 * (advance x y).2 + (advance x y).1 = 32 * y + x + 1 ∧
      (advance x y).1 < 32 := by
  simp only [advance, sprite_size_eq]
  split <;> constructor <;> simp <;> omega

theorem raster_cursor (px : PixBuf) (x y : Nat) (h : x < 32) :
    raster px (32 * y + x) = px x y := by
  unfold raster
  rw [sprite_size_eq]
  have h1 : (32 * y + x) % 32 = x := by omega
  have h2 : (32 * y + x) / 32 = y := by omega
  rw [h1, h2]

theorem u16_bytes_value (v : Nat) (h : v < 2 ^ 16) :
    v % 256 + 256 * (v / 256 % 256) = v := by omega

theorem coloredBytes_length (px : PixBuf) (m : Nat) :
    ∀ pc, (coloredBytes px pc m).length = 3 * m := by
  induction m with
  | zero => intro pc; rfl
  | succ m ih =>
    intro pc
    simp only [coloredBytes, List.length_cons, ih (pc + 1)]
    ring

theorem coloredBytes_getD (px : PixBuf) (m : Nat) :
    ∀ pc k, k < m →
      (coloredBytes px pc m).getD (3 * k) 0 = (raster px (pc + k)).r ∧
      (coloredBytes px pc m).getD (3 * k + 1) 0 = (raster px (pc + k)).g ∧
      (coloredBytes px pc m).getD (3 * k + 2) 0 = (raster px (pc + k)).b := by
  induction m with
  | zero => intro pc k h; omega
  | succ m ih =>
    intro pc k h
    cases k with
    | zero => simp [coloredBytes]
    | succ k =>
      obtain ⟨i1, i2, i3⟩ := ih (pc + 1) k (by omega)
      have e0 : 3 * (k + 1) = 3 * k + 1 + 1 + 1 := by ring
      have e1 : 3 * (k + 1) + 1 = 3 * k + 1 + 1 + 1 + 1 := by ring
      have e2 : 3 * (k + 1) + 2 = 3 * k + 2 + 1 + 1 + 1 := by ring
      have epc : pc + 1 + k = pc + (k + 1) := by ring
      refine ⟨?_, ?_, ?_⟩
      · rw [e0]
        simp only [coloredBytes, List.getD_cons_succ]
        rw [← epc]
        exact i1
      · rw [e1]
        simp only [coloredBytes, List.getD_cons_succ]
        rw [← epc]
        exact i2
      · rw [e2]
        simp only [coloredBytes, List.getD_cons_succ]
        rw [← epc]
        exact i3

theorem bgRun_spec (px : PixBuf) (bg : RGB) (n : Nat) :
    ∀ x y, x < 32 →
      (bgRun px bg n x y).1 ≤ n ∧
      32 * (bgRun px bg n x y).2.2 + (bgRun px bg n x y).2.1 =
        32 * y + x + (bgRun px bg n x y).1 ∧
      (bgRun px bg n x y).2.1 < 32 ∧
      (∀ k < (bgRun px bg n x y).1,
        is_bg (raster px (32 * y + x + k)) bg = true) ∧
      ((bgRun px bg n x y).1 < n →
        is_bg (raster px (32 * y + x + (bgRun px bg n x y).1)) bg = false) := by
  induction n with
  | zero =>
    intro x y hx
    exact ⟨Nat.le_refl 0, by simp [bgRun], hx, fun k hk => absurd hk (by simp [bgRun]),
      fun hlt => absurd hlt (by simp [bgRun])⟩
  | succ n ih =>
    intro x y hx
    by_cases hbg : is_bg (px x y) bg = true
    · obtain ⟨ha, ha'⟩ := advance_spec x y hx
      obtain ⟨ih1, ih2, ih3, ih4, ih5⟩ := ih (advance x y).1 (advance x y).2 ha'
      have hrun : bgRun px bg (n + 1) x y =
          ((bgRun px bg n (advance x y).1 (advance x y).2).1 + 1,
            (bgRun px bg n (advance x y).1 (advance x y).2).2.1,
            (bgRun px bg n (advance x y).1 (advance x y).2).2.2) := by
        simp [bgRun, hbg]
      rw [hrun]
      dsimp only
      refine ⟨by omega, by omega, ih3, ?_, ?_⟩
      · intro k hk
        cases k with
        | zero =>
          rw [Nat.add_zero, raster_cursor px x y hx]
          exact hbg
        | succ k =>
          have := ih4 k (by omega)
          rw [show 32 * y + x + (k + 1) =
            32 * (advance x y).2 + (advance x y).1 + k by omega]
          exact this
      · intro hlt
        have := ih5 (by omega)
        rw [show 32 * y + x +
          ((bgRun px bg n (advance x y).1 (advance x y).2).1 + 1) =
          32 * (advance x y).2 + (advance x y).1 +
            (bgRun px bg n (advance x y).1 (advance x y).2).1 by omega]
        exact this
    · rw [Bool.not_eq_true] at hbg
      have hrun : bgRun px bg (n + 1) x y = (0, x, y) := by
        simp [bgRun, hbg]
      rw [hrun]
      dsimp only
      refine ⟨Nat.zero_le _, by omega, hx, fun k hk => absurd hk (by omega), ?_⟩
      intro _
      rw [Nat.add_zero, raster_cursor px x y hx]
      exact hbg

theorem coloredRun_spec (px : PixBuf) (bg : RGB) (n : Nat) :
    ∀ x y, x < 32 →
      ∃ m, m ≤ n ∧
        (coloredRun px bg n x y).1 = coloredBytes px (32 * y + x) m ∧
        32 * (coloredRun px bg n x y).2.2 + (coloredRun px bg n x y).2.1 =
          32 * y + x + m ∧
        (coloredRun px bg n x y).2.1 < 32 ∧
        (∀ k < m, is_bg (raster px (32 * y + x + k)) bg = false) ∧
        (m < n → is_bg (raster px (32 * y + x + m)) bg = true) := by
  induction n with
  | zero =>
    intro x y hx
    exact ⟨0, Nat.le_refl 0, rfl, by simp [coloredRun], hx,
      fun k hk => absurd hk (by omega), fun h => absurd h (by omega)⟩
  | succ n ih =>
    intro x y hx
    by_cases hbg : is_bg (px x y) bg = true
    · have hrun : coloredRun px bg (n + 1) x y = ([], x, y) := by
        simp [coloredRun, hbg]
      rw [hrun]
      dsimp only
      refine ⟨0, Nat.zero_le _, rfl, by omega, hx,
        fun k hk => absurd hk (by omega), ?_⟩
      intro _
      rw [Nat.add_zero, raster_cursor px x y hx]
      exact hbg
    · rw [Bool.not_eq_true] at hbg
      obtain ⟨ha, ha'⟩ := advance_spec x y hx
      obtain ⟨m, ih1, ih2, ih3, ih4, ih5, ih6⟩ := ih (advance x y).1 (advance x y).2 ha'
      have hrun : coloredRun px bg (n + 1) x y =
          ((px x y).r :: (px x y).g :: (px x y).b ::
            (coloredRun px bg n (advance x y).1 (advance x y).2).1,
            (coloredRun px bg n (advance x y).1 (advance x y).2).2.1,
            (coloredRun px bg n (advance x y).1 (advance x y).2).2.2) := by
        simp [coloredRun, hbg]
      rw [hrun]
      dsimp only
      refine ⟨m + 1, by omega, ?_, by omega, ih4, ?_, ?_⟩
      · simp only [coloredBytes]
        rw [raster_cursor px x y hx, ← ha, ih2]
      · intro k hk
        cases k with
        | zero =>
          rw [Nat.add_zero, raster_cursor px x y hx]
          exact hbg
        | succ k =>
          have := ih5 k (by omega)
          rw [show 32 * y + x + (k + 1) =
            32 * (advance x y).2 + (advance x y).1 + k by omega]
          exact this
      · intro hlt
        have := ih6 (by omega)
        rw [show 32 * y + x + (m + 1) =
          32 * (advance x y).2 + (advance x y).1 + m by omega]
        exact this

/-! ## Codec round trip: decode-side fill lemmas -/

theorem getD_set_self {α : Type} (l : List α) (i : Nat) (v d : α)
    (h : i < l.length) : (l.set i v).getD i d = v := by
  simp [List.getD, List.getElem?_set, h]

theorem getD_set_ne {α : Type} (l : List α) (i j : Nat) (v d : α)
    (h : i ≠ j) : (l.set i v).getD j d = l.getD j d := by
  simp [List.getD, List.getElem?_set, h]

theorem fillBg_spec (bg : RGB) (n : Nat) :
    ∀ g x y, x < 32 → 32 * y + x + n ≤ 1024 → g.length = 1024 →
      32 * (fillBg bg n g x y).2.2 + (fillBg bg n g x y).2.1 = 32 * y + x + n ∧
      (fillBg bg n g x y).2.1 < 32 ∧
      ∀ i d, ((fillBg bg n g x y).1).getD i d =
        if 32 * y + x ≤ i ∧ i < 32 * y + x + n then bgPixel bg
        else g.getD i d := by
  induction n with
  | zero =>
    intro g x y hx hle hg
    rw [show fillBg bg 0 g x y = (g, x, y) from rfl]
    dsimp only
    refine ⟨by omega, hx, ?_⟩
    intro i d
    rw [if_neg (by omega)]
  | succ n ih =>
    intro g x y hx hle hg
    have hy : ¬ (y ≥ SPRITE_SIZE) := by
      rw [sprite_size_eq]
      omega
    rw [fillBg, if_neg hy]
    dsimp only
    obtain ⟨ha, ha'⟩ := advance_spec x y hx
    have hidx : y * SPRITE_SIZE + x = 32 * y + x := by
      rw [sprite_size_eq]
      ring
    rw [hidx]
    obtain ⟨j1, j2, j3⟩ := ih (g.set (32 * y + x) ⟨bg.r, bg.g, bg.b, 255⟩)
      (advance x y).1 (advance x y).2 ha' (by omega)
      (by rw [List.length_set]; exact hg)
    refine ⟨by omega, j2, ?_⟩
    intro i d
    rw [j3 i d]
    by_cases h1 : 32 * (advance x y).2 + (advance x y).1 ≤ i ∧
        i < 32 * (advance x y).2 + (advance x y).1 + n
    · rw [if_pos h1, if_pos (by omega)]
    · rw [if_neg h1]
      by_cases h2 : i = 32 * y + x
      · rw [h2, if_pos (by omega)]
        rw [getD_set_self _ _ _ _ (by omega)]
        rfl
      · rw [if_neg (by omega), getD_set_ne _ _ _ _ _ (fun he => h2 he.symm)]

theorem fillColored_spec (px : PixBuf) (data : List Nat) (n : Nat) :
    ∀ g pos x y, x < 32 → 32 * y + x + n ≤ 1024 → g.length = 1024 →
      pos + 3 * n ≤ data.length →
      (∀ k < n, data.getD (pos + 3 * k) 0 = (raster px (32 * y + x + k)).r ∧
        data.getD (pos + 3 * k + 1) 0 = (raster px (32 * y + x + k)).g ∧
        data.getD (pos + 3 * k + 2) 0 = (raster px (32 * y + x + k)).b) →
      (fillColored data n g pos x y).2.1 = pos + 3 * n ∧
      (fillColored data n g pos x y).2.2.2.2 = false ∧
      32 * (fillColored data n g pos x y).2.2.2.1 +
        (fillColored data n g pos x y).2.2.1 = 32 * y + x + n ∧
      (fillColored data n g pos x y).2.2.1 < 32 ∧
      ∀ i d, ((fillColored data n g pos x y).1).getD i d =
        if 32 * y + x ≤ i ∧ i < 32 * y + x + n then
          ⟨(raster px i).r, (raster px i).g, (raster px i).b, 255⟩
        else g.getD i d := by
  induction n with
  | zero =>
    intro g pos x y hx hle hg hdata hbytes
    rw [show fillColored data 0 g pos x y = (g, pos, x, y, false) from rfl]
    dsimp only
    refine ⟨by omega, rfl, by omega, hx, ?_⟩
    intro i d
    rw [if_neg (by omega)]
  | succ n ih =>
    intro g pos x y hx hle hg hdata hbytes
    have hy : ¬ (y ≥ SPRITE_SIZE) := by
      rw [sprite_size_eq]
      omega
    have hpos : ¬ (pos + 3 > data.length) := by omega
    rw [fillColored, if_neg hy, if_neg hpos]
    dsimp only
    obtain ⟨ha, ha'⟩ := advance_spec x y hx
    have hidx : y * SPRITE_SIZE + x = 32 * y + x := by
      rw [sprite_size_eq]
      ring
    rw [hidx]
    obtain ⟨hb0, hb1, hb2⟩ := hbytes 0 (by omega)
    rw [show pos + 3 * 0 = pos by ring] at hb0
    rw [show pos + 3 * 0 + 1 = pos + 1 by ring] at hb1
    rw [show pos + 3 * 0 + 2 = pos + 2 by ring] at hb2
    rw [show (32 : Nat) * y + x + 0 = 32 * y + x by ring] at hb0 hb1 hb2
    rw [hb0, hb1, hb2]
    have hshift : ∀ k < n,
        data.getD (pos + 3 + 3 * k) 0 =
          (raster px (32 * (advance x y).2 + (advance x y).1 + k)).r ∧
        data.getD (pos + 3 + 3 * k + 1) 0 =
          (raster px (32 * (advance x y).2 + (advance x y).1 + k)).g ∧
        data.getD (pos + 3 + 3 * k + 2) 0 =
          (raster px (32 * (advance x y).2 + (advance x y).1 + k)).b := by
      intro k hk
      obtain ⟨c0, c1, c2⟩ := hbytes (k + 1) (by omega)
      refine ⟨?_, ?_, ?_⟩
      · rw [show pos + 3 + 3 * k = pos + 3 * (k + 1) by ring,
          show 32 * (advance x y).2 + (advance x y).1 + k =
            32 * y + x + (k + 1) by omega]
        exact c0
      · rw [show pos + 3 + 3 * k + 1 = pos + 3 * (k + 1) + 1 by ring,
          show 32 * (advance x y).2 + (advance x y).1 + k =
            32 * y + x + (k + 1) by omega]
        exact c1
      · rw [show pos + 3 + 3 * k + 2 = pos + 3 * (k + 1) + 2 by ring,
          show 32 * (advance x y).2 + (advance x y).1 + k =
            32 * y + x + (k + 1) by omega]
        exact c2
    obtain ⟨j1, j2, j3, j4, j5⟩ := ih
      (g.set (32 * y + x)
        ⟨(raster px (32 * y + x)).r, (raster px (32 * y + x)).g,
          (raster px (32 * y + x)).b, 255⟩)
      (pos + 3) (advance x y).1 (advance x y).2 ha' (by omega)
      (by rw [List.length_set]; exact hg) (by omega) hshift
    refine ⟨by omega, j2, by omega, j4, ?_⟩
    intro i d
    rw [j5 i d]
    by_cases h1 : 32 * (advance x y).2 + (advance x y).1 ≤ i ∧
        i < 32 * (advance x y).2 + (advance x y).1 + n
    · rw [if_pos h1, if_pos (by omega)]
    · rw [if_neg h1]
      by_cases h2 : i = 32 * y + x
      · rw [h2, if_pos (by omega)]
        rw [getD_set_self _ _ _ _ (by omega)]
      · rw [if_neg (by omega), getD_set_ne _ _ _ _ _ (fun he => h2 he.symm)]

/-! ## Codec round trip: position-shift lemmas -/

theorem decodeLoop_nil (bg : RGB) (fuel : Nat) (g : List RGBA) (pos x y : Nat) :
    decodeLoop [] bg fuel g pos x y = (g, pos, false) := by
  cases fuel with
  | zero => rfl
  | succ fuel =>
    rw [decodeLoop, if_neg]
    simp

theorem encodeLoop_stop (px : PixBuf) (bg : RGB) (efuel x y pc : Nat)
    (h : SPRITE_SIZE * SPRITE_SIZE ≤ pc) :
    encodeLoop px bg efuel x y pc = [] := by
  cases efuel with
  | zero => rfl
  | succ efuel =>
    rw [encodeLoop, if_neg (by omega)]

theorem fillColored_append (a b : List Nat) (n : Nat) :
    ∀ g p x y, fillColored (a ++ b) n g (a.length + p) x y =
      ((fillColored b n g p x y).1, a.length + (fillColored b n g p x y).2.1,
        (fillColored b n g p x y).2.2.1, (fillColored b n g p x y).2.2.2.1,
        (fillColored b n g p x y).2.2.2.2) := by
  induction n with
  | zero => intro g p x y; rfl
  | succ n ih =>
    intro g p x y
    rw [fillColored, fillColored]
    by_cases hy : y ≥ SPRITE_SIZE
    · rw [if_pos hy, if_pos hy]
    · rw [if_neg hy, if_neg hy]
      have hlen : (a ++ b).length = a.length + b.length := List.length_append a b
      by_cases hp : p + 3 > b.length
      · rw [if_pos (by omega), if_pos hp]
      · rw [if_neg (by omega), if_neg hp]
        dsimp only
        rw [List.getD_append_right a b 0 (a.length + p) (by omega),
          List.getD_append_right a b 0 (a.length + p + 1) (by omega),
          List.getD_append_right a b 0 (a.length + p + 2) (by omega)]
        rw [show a.length + p - a.length = p by omega,
          show a.length + p + 1 - a.length = p + 1 by omega,
          show a.length + p + 2 - a.length = p + 2 by omega]
        rw [show a.length + p + 3 = a.length + (p + 3) by ring]
        exact ih _ (p + 3) _ _

theorem decodeLoop_append (bg : RGB) (a b : List Nat) (fuel : Nat) :
    ∀ g p x y, decodeLoop (a ++ b) bg fuel g (a.length + p) x y =
      ((decodeLoop b bg fuel g p x y).1,
        a.length + (decodeLoop b bg fuel g p x y).2.1,
        (decodeLoop b bg fuel g p x y).2.2) := by
  induction fuel with
  | zero => intro g p x y; rfl
  | succ fuel ih =>
    intro g p x y
    rw [decodeLoop, decodeLoop]
    have hlen : (a ++ b).length = a.length + b.length := List.length_append a b
    by_cases hc : p < b.length ∧ y < SPRITE_SIZE
    · rw [if_pos (by omega), if_pos hc]
      by_cases hp : p + 4 > b.length
      · rw [if_pos (by omega), if_pos hp]
      · rw [if_neg (by omega), if_neg hp]
        dsimp only
        rw [List.getD_append_right a b 0 (a.length + p) (by omega),
          List.getD_append_right a b 0 (a.length + p + 1) (by omega),
          List.getD_append_right a b 0 (a.length + p + 2) (by omega),
          List.getD_append_right a b 0 (a.length + p + 3) (by omega)]
        rw [show a.length + p - a.length = p by omega,
          show a.length + p + 1 - a.length = p + 1 by omega,
          show a.length + p + 2 - a.length = p + 2 by omega,
          show a.length + p + 3 - a.length = p + 3 by omega]
        rw [show a.length + p + 4 = a.length + (p + 4) by ring]
        rw [fillColored_append a b _ _ (p + 4) _ _]
        dsimp only
        rw [ih _ _ _ _]
    · rw [if_neg (by omega), if_neg hc]

/-! ## Codec round trip: the simulation lemma

Decoding the encoder's output for the pixels from raster position `pc` on
consumes it entirely, never hits a truncation early-stop, and overwrites
exactly the positions `pc ≤ i < 1024` with the round-trip pixel
(`expectedPix`). -/

theorem decode_encode_sim (px : PixBuf) (bg : RGB) :
    ∀ efuel pc x y g dfuel,
      32 * y + x = pc → x < 32 → pc ≤ 1024 → g.length = 1024 →
      1024 - pc ≤ efuel →
      (encodeLoop px bg efuel x y pc).length ≤ 4 * dfuel →
      (decodeLoop (encodeLoop px bg efuel x y pc) bg dfuel g 0 x y).2.1 =
        (encodeLoop px bg efuel x y pc).length ∧
      (decodeLoop (encodeLoop px bg efuel x y pc) bg dfuel g 0 x y).2.2 = false ∧
      ∀ i d,
        ((decodeLoop (encodeLoop px bg efuel x y pc) bg dfuel g 0 x y).1).getD i d =
          if pc ≤ i ∧ i < 1024 then expectedPix px bg i else g.getD i d := by
  intro efuel
  induction efuel with
  | zero =>
    intro pc x y g dfuel hxy hx hpc hg hef hdf
    rw [show encodeLoop px bg 0 x y pc = [] from rfl, decodeLoop_nil]
    refine ⟨rfl, rfl, ?_⟩
    intro i d
    rw [if_neg (by omega)]
  | succ efuel ih =>
    intro pc x y g dfuel hxy hx hpc hg hef hdf
    by_cases hlt : pc < 1024
    case neg =>
      have hstop : encodeLoop px bg (efuel + 1) x y pc = [] :=
        encodeLoop_stop px bg _ x y pc (by rw [sprite_size_eq]; omega)
      rw [hstop] at hdf ⊢
      rw [decodeLoop_nil]
      refine ⟨rfl, rfl, ?_⟩
      intro i d
      rw [if_neg (by omega)]
    case pos =>
      have hunfold : encodeLoop px bg (efuel + 1) x y pc =
          u16le (bgRun px bg (1024 - pc) x y).1 ++
            u16le ((coloredRun px bg (1024 - (pc + (bgRun px bg (1024 - pc) x y).1))
                (bgRun px bg (1024 - pc) x y).2.1
                (bgRun px bg (1024 - pc) x y).2.2).1.length / 3) ++
            (coloredRun px bg (1024 - (pc + (bgRun px bg (1024 - pc) x y).1))
              (bgRun px bg (1024 - pc) x y).2.1
              (bgRun px bg (1024 - pc) x y).2.2).1 ++
            encodeLoop px bg efuel
              (coloredRun px bg (1024 - (pc + (bgRun px bg (1024 - pc) x y).1))
                (bgRun px bg (1024 - pc) x y).2.1
                (bgRun px bg (1024 - pc) x y).2.2).2.1
              (coloredRun px bg (1024 - (pc + (bgRun px bg (1024 - pc) x y).1))
                (bgRun px bg (1024 - pc) x y).2.1
                (bgRun px bg (1024 - pc) x y).2.2).2.2
              (pc + (bgRun px bg (1024 - pc) x y).1 +
                (coloredRun px bg (1024 - (pc + (bgRun px bg (1024 - pc) x y).1))
                  (bgRun px bg (1024 - pc) x y).2.1
                  (bgRun px bg (1024 - pc) x y).2.2).1.length / 3) := by
        rw [encodeLoop, if_pos (show pc < SPRITE_SIZE * SPRITE_SIZE by
          rw [sprite_size_eq]; omega)]
        rfl
      set B := bgRun px bg (1024 - pc) x y with hB
      set C := coloredRun px bg (1024 - (pc + B.1)) B.2.1 B.2.2 with hC
      obtain ⟨hb_le, hb_cur, hb_x, hb_all, hb_max⟩ :=
        bgRun_spec px bg (1024 - pc) x y hx
      rw [← hB] at hb_le hb_cur hb_x hb_all hb_max
      rw [hxy] at hb_cur hb_all hb_max
      obtain ⟨m, hm_le, hm_cd, hm_cur, hm_x, hm_all, hm_max⟩ :=
        coloredRun_spec px bg (1024 - (pc + B.1)) B.2.1 B.2.2 hb_x
      rw [← hC] at hm_cd hm_cur hm_x
      rw [hb_cur] at hm_cd hm_cur hm_all hm_max
      have hC1len : C.1.length = 3 * m := by
        rw [hm_cd, coloredBytes_length]
      have hcolc : C.1.length / 3 = m := by
        rw [hC1len]
        omega
      rw [hunfold, hcolc] at hdf ⊢
      have hprog : 1 ≤ B.1 + m := by
        by_contra hcon
        have hB0 : B.1 = 0 := by omega
        have hm0 : m = 0 := by omega
        have h1 := hb_max (by omega)
        have h2 := hm_max (by omega)
        rw [hB0, Nat.add_zero] at h2
        rw [hB0] at h1
        rw [hm0, Nat.add_zero] at h2
        rw [Nat.add_zero] at h1
        rw [h1] at h2
        exact Bool.noConfusion h2
      have hPlen : (u16le B.1 ++ u16le m ++ C.1 ++
          encodeLoop px bg efuel C.2.1 C.2.2 (pc + B.1 + m)).length =
          4 + 3 * m + (encodeLoop px bg efuel C.2.1 C.2.2 (pc + B.1 + m)).length := by
        simp [u16le, List.length_append, hC1len]
        omega
      cases dfuel with
      | zero =>
        rw [hPlen] at hdf
        omega
      | succ df =>
        have hy32 : y < SPRITE_SIZE := by
          rw [sprite_size_eq]
          omega
        rw [decodeLoop, if_pos (⟨by rw [hPlen]; omega, hy32⟩ :
          0 < (u16le B.1 ++ u16le m ++ C.1 ++
            encodeLoop px bg efuel C.2.1 C.2.2 (pc + B.1 + m)).length ∧
          y < SPRITE_SIZE), if_neg (show ¬ (0 + 4 > (u16le B.1 ++ u16le m ++ C.1 ++
            encodeLoop px bg efuel C.2.1 C.2.2 (pc + B.1 + m)).length) by
          rw [hPlen]; omega)]
        dsimp only
        have hread0 : (u16le B.1 ++ u16le m ++ C.1 ++
            encodeLoop px bg efuel C.2.1 C.2.2 (pc + B.1 + m)).getD 0 0 +
            256 * (u16le B.1 ++ u16le m ++ C.1 ++
              encodeLoop px bg efuel C.2.1 C.2.2 (pc + B.1 + m)).getD (0 + 1) 0 =
            B.1 := by
          simp [u16le, List.cons_append]
          omega
        have hread1 : (u16le B.1 ++ u16le m ++ C.1 ++
            encodeLoop px bg efuel C.2.1 C.2.2 (pc + B.1 + m)).getD (0 + 2) 0 +
            256 * (u16le B.1 ++ u16le m ++ C.1 ++
              encodeLoop px bg efuel C.2.1 C.2.2 (pc + B.1 + m)).getD (0 + 3) 0 =
            m := by
          simp [u16le, List.cons_append]
          omega
        rw [hread0, hread1]
        obtain ⟨f1, f2, f3⟩ := fillBg_spec bg B.1 g x y hx (by omega) hg
        rw [hxy] at f1 f3
        have hfx : (fillBg bg B.1 g x y).2.1 = B.2.1 := by omega
        have hfy : (fillBg bg B.1 g x y).2.2 = B.2.2 := by omega
        rw [hfx, hfy]
        have hbytes : ∀ k < m,
            (u16le B.1 ++ u16le m ++ C.1 ++
              encodeLoop px bg efuel C.2.1 C.2.2 (pc + B.1 + m)).getD
                (0 + 4 + 3 * k) 0 =
              (raster px (32 * B.2.2 + B.2.1 + k)).r ∧
            (u16le B.1 ++ u16le m ++ C.1 ++
              encodeLoop px bg efuel C.2.1 C.2.2 (pc + B.1 + m)).getD
                (0 + 4 + 3 * k + 1) 0 =
              (raster px (32 * B.2.2 + B.2.1 + k)).g ∧
            (u16le B.1 ++ u16le m ++ C.1 ++
              encodeLoop px bg efuel C.2.1 C.2.2 (pc + B.1 + m)).getD
                (0 + 4 + 3 * k + 2) 0 =
              (raster px (32 * B.2.2 + B.2.1 + k)).b := by
          intro k hk
          obtain ⟨c0, c1, c2⟩ := coloredBytes_getD px m (pc + B.1) k hk
          rw [hb_cur]
          refine ⟨?_, ?_, ?_⟩
          · rw [show 0 + 4 + 3 * k = 3 * k + 1 + 1 + 1 + 1 by ring]
            simp only [u16le, List.cons_append, List.nil_append,
              List.getD_cons_succ]
            rw [List.getD_append _ _ _ _ (by rw [hC1len]; omega), hm_cd]
            exact c0
          · rw [show 0 + 4 + 3 * k + 1 = 3 * k + 1 + 1 + 1 + 1 + 1 by ring]
            simp only [u16le, List.cons_append, List.nil_append,
              List.getD_cons_succ]
            rw [List.getD_append _ _ _ _ (by rw [hC1len]; omega), hm_cd]
            exact c1
          · rw [show 0 + 4 + 3 * k + 2 = 3 * k + 2 + 1 + 1 + 1 + 1 by ring]
            simp only [u16le, List.cons_append, List.nil_append,
              List.getD_cons_succ]
            rw [List.getD_append _ _ _ _ (by rw [hC1len]; omega), hm_cd]
            exact c2
        obtain ⟨k1, k2, k3, k4, k5⟩ := fillColored_spec px
          (u16le B.1 ++ u16le m ++ C.1 ++
            encodeLoop px bg efuel C.2.1 C.2.2 (pc + B.1 + m)) m
          (fillBg bg B.1 g x y).1 (0 + 4) B.2.1 B.2.2 hb_x
          (by omega) (by rw [fillBg_length]; exact hg)
          (by rw [hPlen]; omega) hbytes
        rw [hb_cur] at k3 k5
        have hkx : (fillColored (u16le B.1 ++ u16le m ++ C.1 ++
            encodeLoop px bg efuel C.2.1 C.2.2 (pc + B.1 + m)) m
            (fillBg bg B.1 g x y).1 (0 + 4) B.2.1 B.2.2).2.2.1 = C.2.1 := by
          omega
        have hky : (fillColored (u16le B.1 ++ u16le m ++ C.1 ++
            encodeLoop px bg efuel C.2.1 C.2.2 (pc + B.1 + m)) m
            (fillBg bg B.1 g x y).1 (0 + 4) B.2.1 B.2.2).2.2.2.1 = C.2.2 := by
          omega
        rw [k1, k2, hkx, hky]
        have hAlen : (u16le B.1 ++ u16le m ++ C.1).length = 4 + 3 * m := by
          simp [u16le, List.length_append, hC1len]
          omega
        have hposA : 0 + 4 + 3 * m = (u16le B.1 ++ u16le m ++ C.1).length + 0 := by
          rw [hAlen]
          ring
        have happ := decodeLoop_append bg (u16le B.1 ++ u16le m ++ C.1)
          (encodeLoop px bg efuel C.2.1 C.2.2 (pc + B.1 + m)) df
          (fillColored (u16le B.1 ++ u16le m ++ C.1 ++
            encodeLoop px bg efuel C.2.1 C.2.2 (pc + B.1 + m)) m
            (fillBg bg B.1 g x y).1 (0 + 4) B.2.1 B.2.2).1
          0 C.2.1 C.2.2
        rw [← hposA] at happ
        rw [happ]
        obtain ⟨r1, r2, r3⟩ := ih (pc + B.1 + m) C.2.1 C.2.2
          (fillColored (u16le B.1 ++ u16le m ++ C.1 ++
            encodeLoop px bg efuel C.2.1 C.2.2 (pc + B.1 + m)) m
            (fillBg bg B.1 g x y).1 (0 + 4) B.2.1 B.2.2).1 df
          hm_cur hm_x (by omega)
          (by rw [fillColored_length, fillBg_length]; exact hg)
          (by omega)
          (by omega)
        refine ⟨?_, ?_, ?_⟩
        · dsimp only
          rw [r1, hAlen, hPlen]
        · dsimp only
          rw [r2]
          rfl
        · intro i d
          dsimp only
          rw [r3 i d, k5 i d, f3 i d]
          by_cases h1 : pc ≤ i ∧ i < 1024
          · by_cases h2 : i < pc + B.1
            · rw [if_neg (by omega), if_neg (by omega), if_pos (by omega),
                if_pos h1]
              have hibg := hb_all (i - pc) (by omega)
              rw [show pc + (i - pc) = i by omega] at hibg
              rw [expectedPix, if_pos hibg]
            · by_cases h3 : i < pc + B.1 + m
              · rw [if_neg (by omega), if_pos (by omega), if_pos h1]
                have hibg := hm_all (i - (pc + B.1)) (by omega)
                rw [show pc + B.1 + (i - (pc + B.1)) = i by omega] at hibg
                rw [expectedPix, if_neg (by rw [hibg]; exact Bool.false_ne_true)]
              · rw [if_pos (by omega), if_pos h1]
          · rw [if_neg (by omega), if_neg (by omega), if_neg (by omega),
              if_neg h1]

/-! ## Codec claims (C1, C6) -/

theorem encodeLoop_length_pos (px : PixBuf) (bg : RGB) (efuel x y pc : Nat)
    (h : pc < 1024) : 0 < (encodeLoop px bg (efuel + 1) x y pc).length := by
  rw [encodeLoop, if_pos (show pc < SPRITE_SIZE * SPRITE_SIZE by
    rw [sprite_size_eq]; omega)]
  simp [u16le, List.length_append]

theorem ext_getD {α : Type} (l₁ l₂ : List α) (d : α)
    (hlen : l₁.length = l₂.length)
    (h : ∀ i < l₁.length, l₁.getD i d = l₂.getD i d) : l₁ = l₂ := by
  refine List.ext_getElem hlen ?_
  intro i h1 h2
  have := h i h1
  rwa [List.getD_eq_getElem l₁ d h1, List.getD_eq_getElem l₂ d h2] at this

/-- C1: the decode∘encode round trip.  For every 32×32 source buffer and
background color, decoding the encoded tile yields, at every raster
position, the opaque background color where the source pixel was
background-classified (alpha 0 or RGB exactly equal to the background)
and the source pixel's RGB at alpha 255 everywhere else — this is
`expectedPix`, and the whole decoded canvas is its raster table. -/
theorem c1_decode_encode_roundtrip (px : PixBuf) (bg : RGB) :
    decode_sprite (encode_sprite px bg) bg =
      (List.range (SPRITE_SIZE * SPRITE_SIZE)).map (expectedPix px bg) := by
  have hmain := decode_encode_sim px bg 1024 0 0 0
    (List.replicate 1024 transparent)
    (encodeLoop px bg 1024 0 0 0).length
    (by omega) (by omega) (by omega) (by rw [List.length_replicate])
    (by omega) (by omega)
  have hne : encodeLoop px bg 1024 0 0 0 ≠ [] := by
    intro hcon
    have := encodeLoop_length_pos px bg 1023 0 0 0 (by omega)
    rw [show (1023 : Nat) + 1 = 1024 from rfl, hcon] at this
    simp at this
  have hdec : decode_sprite (encode_sprite px bg) bg =
      (decodeLoop (encodeLoop px bg 1024 0 0 0) bg
        (encodeLoop px bg 1024 0 0 0).length
        (List.replicate 1024 transparent) 0 0 0).1 := by
    rw [decode_sprite]
    rw [if_neg (by exact hne)]
    rfl
  rw [hdec]
  refine ext_getD _ _ transparent ?_ ?_
  · rw [decodeLoop_length, List.length_replicate, List.length_map,
      List.length_range]
    rfl
  · intro i hi
    rw [decodeLoop_length, List.length_replicate] at hi
    rw [hmain.2.2 i transparent, if_pos ⟨by omega, by omega⟩]
    have hr : ((List.range (SPRITE_SIZE * SPRITE_SIZE)).map
        (expectedPix px bg)).getD i transparent = expectedPix px bg i := by
      have hlt : i < ((List.range (SPRITE_SIZE * SPRITE_SIZE)).map
          (expectedPix px bg)).length := by
        rw [List.length_map, List.length_range, sprite_size_eq]
        omega
      rw [List.getD_eq_getElem _ _ hlt, List.getElem_map, List.getElem_range]
    rw [hr]

theorem chunksPixels_foldl_shift (cs : List (Nat × List Nat)) :
    ∀ s, cs.foldl (fun t c => t + c.1 + c.2.length / 3) s =
      s + cs.foldl (fun t c => t + c.1 + c.2.length / 3) 0 := by
  induction cs with
  | nil => intro s; simp
  | cons c cs ih =>
    intro s
    simp only [List.foldl_cons]
    rw [ih (s + c.1 + c.2.length / 3), ih (0 + c.1 + c.2.length / 3)]
    omega

theorem chunksPixels_cons (c : Nat × List Nat) (cs : List (Nat × List Nat)) :
    chunksPixels (c :: cs) = c.1 + c.2.length / 3 + chunksPixels cs := by
  unfold chunksPixels
  simp only [List.foldl_cons]
  rw [chunksPixels_foldl_shift]
  omega

theorem chunks_encodeLoop (px : PixBuf) (bg : RGB) :
    ∀ efuel pc x y, 32 * y + x = pc → x < 32 → pc ≤ 1024 →
      1024 - pc ≤ efuel →
      ∃ cs, chunks (encodeLoop px bg efuel x y pc) = some cs ∧
        chunksPixels cs = 1024 - pc ∧
        cs.all (fun c => c.1 + c.2.length / 3 != 0) = true := by
  intro efuel
  induction efuel with
  | zero =>
    intro pc x y hxy hx hpc hef
    rw [show encodeLoop px bg 0 x y pc = [] from rfl]
    refine ⟨[], by simp [chunks], ?_, rfl⟩
    rw [show chunksPixels [] = 0 from rfl]
    omega
  | succ efuel ih =>
    intro pc x y hxy hx hpc hef
    by_cases hlt : pc < 1024
    case neg =>
      rw [encodeLoop_stop px bg _ x y pc (by rw [sprite_size_eq]; omega)]
      refine ⟨[], by simp [chunks], ?_, rfl⟩
      rw [show chunksPixels [] = 0 from rfl]
      omega
    case pos =>
      have hunfold : encodeLoop px bg (efuel + 1) x y pc =
          u16le (bgRun px bg (1024 - pc) x y).1 ++
            u16le ((coloredRun px bg (1024 - (pc + (bgRun px bg (1024 - pc) x y).1))
                (bgRun px bg (1024 - pc) x y).2.1
                (bgRun px bg (1024 - pc) x y).2.2).1.length / 3) ++
            (coloredRun px bg (1024 - (pc + (bgRun px bg (1024 - pc) x y).1))
              (bgRun px bg (1024 - pc) x y).2.1
              (bgRun px bg (1024 - pc) x y).2.2).1 ++
            encodeLoop px bg efuel
              (coloredRun px bg (1024 - (pc + (bgRun px bg (1024 - pc) x y).1))
                (bgRun px bg (1024 - pc) x y).2.1
                (bgRun px bg (1024 - pc) x y).2.2).2.1
              (coloredRun px bg (1024 - (pc + (bgRun px bg (1024 - pc) x y).1))
                (bgRun px bg (1024 - pc) x y).2.1
                (bgRun px bg (1024 - pc) x y).2.2).2.2
              (pc + (bgRun px bg (1024 - pc) x y).1 +
                (coloredRun px bg (1024 - (pc + (bgRun px bg (1024 - pc) x y).1))
                  (bgRun px bg (1024 - pc) x y).2.1
                  (bgRun px bg (1024 - pc) x y).2.2).1.length / 3) := by
        rw [encodeLoop, if_pos (show pc < SPRITE_SIZE * SPRITE_SIZE by
          rw [sprite_size_eq]; omega)]
        rfl
      set B := bgRun px bg (1024 - pc) x y with hB
      set C := coloredRun px bg (1024 - (pc + B.1)) B.2.1 B.2.2 with hC
      obtain ⟨hb_le, hb_cur, hb_x, hb_all, hb_max⟩ :=
        bgRun_spec px bg (1024 - pc) x y hx
      rw [← hB] at hb_le hb_cur hb_x hb_all hb_max
      rw [hxy] at hb_cur hb_all hb_max
      obtain ⟨m, hm_le, hm_cd, hm_cur, hm_x, hm_all, hm_max⟩ :=
        coloredRun_spec px bg (1024 - (pc + B.1)) B.2.1 B.2.2 hb_x
      rw [← hC] at hm_cd hm_cur hm_x
      rw [hb_cur] at hm_cd hm_cur hm_all hm_max
      have hC1len : C.1.length = 3 * m := by
        rw [hm_cd, coloredBytes_length]
      have hcolc : C.1.length / 3 = m := by
        rw [hC1len]
        omega
      have hprog : 1 ≤ B.1 + m := by
        by_contra hcon
        have hB0 : B.1 = 0 := by omega
        have hm0 : m = 0 := by omega
        have h1 := hb_max (by omega)
        have h2 := hm_max (by omega)
        rw [hB0, Nat.add_zero] at h2
        rw [hB0] at h1
        rw [hm0, Nat.add_zero] at h2
        rw [Nat.add_zero] at h1
        rw [h1] at h2
        exact Bool.noConfusion h2
      rw [hunfold, hcolc]
      obtain ⟨cs', hcs1, hcs2, hcs3⟩ := ih (pc + B.1 + m) C.2.1 C.2.2
        hm_cur hm_x (by omega) (by omega)
      have hcons : u16le B.1 ++ u16le m ++ C.1 ++
          encodeLoop px bg efuel C.2.1 C.2.2 (pc + B.1 + m) =
          B.1 % 256 :: (B.1 / 256 % 256) :: (m % 256) :: (m / 256 % 256) ::
            (C.1 ++ encodeLoop px bg efuel C.2.1 C.2.2 (pc + B.1 + m)) := by
        simp [u16le, List.cons_append, List.append_assoc]
      rw [hcons]
      simp only [chunks]
      have hcolored : m % 256 + 256 * (m / 256 % 256) = m := by omega
      rw [hcolored]
      rw [if_pos (by rw [List.length_append, hC1len]; omega)]
      rw [show (3 : Nat) * m = C.1.length by omega, List.drop_left, List.take_left,
        hcs1]
      refine ⟨(B.1 % 256 + 256 * (B.1 / 256 % 256), C.1) :: cs', rfl, ?_, ?_⟩
      · rw [chunksPixels_cons, hcs2]
        dsimp only
        have hbval : B.1 % 256 + 256 * (B.1 / 256 % 256) = B.1 := by omega
        rw [hbval, hcolc]
        omega
      · rw [List.all_cons, hcs3, Bool.and_true]
        dsimp only
        rw [hcolc]
        have hbval : B.1 % 256 + 256 * (B.1 / 256 % 256) = B.1 := by omega
        rw [hbval]
        simp only [bne_iff_ne, ne_eq]
        omega

/-- C6: `encode_sprite`'s payload is well-formed: it parses as a strict
concatenation of chunks (each a full 4-byte header plus exactly
`colored_count * 3` raw bytes, nothing left over), the per-chunk pixel
totals sum to 1024, every chunk covers at least one pixel, and decoding
it consumes the whole payload without hitting a truncation early-stop. -/
theorem c6_encode_payload_wellformed (px : PixBuf) (bg : RGB) :
    (∃ cs, chunks (encode_sprite px bg).pixel_data = some cs ∧
      chunksPixels cs = SPRITE_SIZE * SPRITE_SIZE ∧
      cs.all (fun c => c.1 + c.2.length / 3 != 0) = true) ∧
    (decodeSpriteFull (encode_sprite px bg) bg).2.1 =
      (encode_sprite px bg).pixel_data.length ∧
    (decodeSpriteFull (encode_sprite px bg) bg).2.2 = false := by
  have hne : encodeLoop px bg 1024 0 0 0 ≠ [] := by
    intro hcon
    have := encodeLoop_length_pos px bg 1023 0 0 0 (by omega)
    rw [show (1023 : Nat) + 1 = 1024 from rfl, hcon] at this
    simp at this
  have hmain := decode_encode_sim px bg 1024 0 0 0
    (List.replicate 1024 transparent)
    (encodeLoop px bg 1024 0 0 0).length
    (by omega) (by omega) (by omega) (by rw [List.length_replicate])
    (by omega) (by omega)
  have hfull : decodeSpriteFull (encode_sprite px bg) bg =
      decodeLoop (encodeLoop px bg 1024 0 0 0) bg
        (encodeLoop px bg 1024 0 0 0).length
        (List.replicate 1024 transparent) 0 0 0 := by
    rw [decodeSpriteFull]
    rw [if_neg (by exact hne)]
    rfl
  refine ⟨?_, ?_, ?_⟩
  · obtain ⟨cs, h1, h2, h3⟩ := chunks_encodeLoop px bg 1024 0 0 0
      (by omega) (by omega) (by omega) (by omega)
    exact ⟨cs, h1, by rw [h2]; rfl, h3⟩
  · rw [hfull]
    exact hmain.1
  · rw [hfull]
    exact hmain.2.1

/-! ## Writer correctness: buffer-write primitives

`_compile` writes into a zero-filled `bytearray`.  Each primitive below
describes one Python write at the boundary between the already-written
prefix and the zero region that follows it. -/

theorem set_append_right' {α : Type} (A B : List α) (k : Nat) (v : α) :
    (A ++ B).set (A.length + k) v = A ++ B.set k v := by
  rw [List.set_append, if_neg (by omega),
    show A.length + k - A.length = k by omega]

theorem set_append_left' {α : Type} (A B : List α) (k : Nat) (v : α)
    (h : k < A.length) : (A ++ B).set k v = A.set k v ++ B := by
  rw [List.set_append, if_pos h]

theorem replicate_split (z n : Nat) (h : n ≤ z) :
    List.replicate z (0 : Nat) =
      List.replicate n 0 ++ List.replicate (z - n) 0 := by
  rw [← List.replicate_add]
  congr 1
  omega

theorem setByte_zeros (A T : List Nat) (z v : Nat) (hz : 1 ≤ z) (hv : v < 256) :
    setByte (A ++ List.replicate z 0 ++ T) A.length v =
      .ok (A ++ [v] ++ List.replicate (z - 1) 0 ++ T) := by
  unfold setByte
  rw [if_pos (by simp only [List.length_append, List.length_replicate]; omega),
    if_pos hv]
  rw [List.set_append,
    if_pos (by simp only [List.length_append, List.length_replicate]; omega)]
  rw [List.set_append, if_neg (by omega), Nat.sub_self]
  rw [replicate_split z 1 hz]
  rw [List.set_append, if_pos (by simp)]
  simp [List.set, List.append_assoc]

theorem packIntoU16_zeros (A T : List Nat) (z v : Nat) (hz : 2 ≤ z)
    (hv : v < 2 ^ 16) :
    packIntoU16 (A ++ List.replicate z 0 ++ T) A.length v =
      .ok (A ++ u16le v ++ List.replicate (z - 2) 0 ++ T) := by
  unfold packIntoU16
  rw [if_pos (by simp only [List.length_append, List.length_replicate]; omega),
    if_pos hv]
  rw [replicate_split z 2 hz]
  have h1 : (A ++ (List.replicate 2 0 ++ List.replicate (z - 2) 0) ++ T).set
      A.length (v % 256) =
      A ++ ([v % 256, 0] ++ List.replicate (z - 2) 0) ++ T := by
    rw [List.set_append,
      if_pos (by simp only [List.length_append, List.length_replicate]; omega)]
    rw [List.set_append, if_neg (by omega), Nat.sub_self]
    rw [List.set_append, if_pos (by simp)]
    rfl
  rw [h1]
  have h2 : (A ++ ([v % 256, 0] ++ List.replicate (z - 2) 0) ++ T).set
      (A.length + 1) (v / 256 % 256) =
      A ++ ([v % 256, v / 256 % 256] ++ List.replicate (z - 2) 0) ++ T := by
    rw [List.set_append,
      if_pos (by simp only [List.length_append, List.length_replicate,
        List.length_cons]; omega)]
    rw [List.set_append, if_neg (by omega),
      show A.length + 1 - A.length = 1 by omega]
    rw [List.set_append, if_pos (by simp)]
    rfl
  rw [h2]
  simp [u16le, List.append_assoc]

theorem packIntoU32_zeros (A T : List Nat) (z v : Nat) (hz : 4 ≤ z)
    (hv : v < 2 ^ 32) :
    packIntoU32 (A ++ List.replicate z 0 ++ T) A.length v =
      .ok (A ++ u32le v ++ List.replicate (z - 4) 0 ++ T) := by
  unfold packIntoU32
  rw [if_pos (by simp only [List.length_append, List.length_replicate]; omega),
    if_pos hv]
  rw [replicate_split z 4 hz]
  have step : ∀ (front : List Nat) (k w : Nat), k < 4 → front.length = 4 →
      (A ++ (front ++ List.replicate (z - 4) 0) ++ T).set (A.length + k) w =
      A ++ (front.set k w ++ List.replicate (z - 4) 0) ++ T := by
    intro front k w hk hf
    rw [List.set_append,
      if_pos (by simp only [List.length_append, List.length_replicate, hf]; omega)]
    rw [List.set_append, if_neg (by omega),
      show A.length + k - A.length = k by omega]
    rw [List.set_append, if_pos (by rw [hf]; omega)]
  have h0 : (A ++ (List.replicate 4 0 ++ List.replicate (z - 4) 0) ++ T).set
      A.length (v % 256) =
      A ++ ([v % 256, 0, 0, 0] ++ List.replicate (z - 4) 0) ++ T := by
    have := step (List.replicate 4 0) 0 (v % 256) (by omega) (by simp)
    rw [show A.length + 0 = A.length by omega] at this
    rw [this]
    rfl
  have h1 : (A ++ ([v % 256, 0, 0, 0] ++ List.replicate (z - 4) 0) ++ T).set
      (A.length + 1) (v / 256 % 256) =
      A ++ ([v % 256, v / 256 % 256, 0, 0] ++ List.replicate (z - 4) 0) ++ T := by
    rw [step [v % 256, 0, 0, 0] 1 (v / 256 % 256) (by omega) rfl]
    rfl
  have h2 : (A ++ ([v % 256, v / 256 % 256, 0, 0] ++
      List.replicate (z - 4) 0) ++ T).set (A.length + 2) (v / 256 ^ 2 % 256) =
      A ++ ([v % 256, v / 256 % 256, v / 256 ^ 2 % 256, 0] ++
        List.replicate (z - 4) 0) ++ T := by
    rw [step [v % 256, v / 256 % 256, 0, 0] 2 (v / 256 ^ 2 % 256) (by omega) rfl]
    rfl
  have h3 : (A ++ ([v % 256, v / 256 % 256, v / 256 ^ 2 % 256, 0] ++
      List.replicate (z - 4) 0) ++ T).set (A.length + 3) (v / 256 ^ 3 % 256) =
      A ++ ([v % 256, v / 256 % 256, v / 256 ^ 2 % 256, v / 256 ^ 3 % 256] ++
        List.replicate (z - 4) 0) ++ T := by
    rw [step [v % 256, v / 256 % 256, v / 256 ^ 2 % 256, 0] 3 (v / 256 ^ 3 % 256)
      (by omega) rfl]
    rfl
  rw [h0, h1, h2, h3]
  simp [u32le, List.append_assoc]

theorem setSlice_end (G xs : List Nat) (z : Nat) (h : xs.length ≤ z) :
    setSlice (G ++ List.replicate z 0) G.length (G.length + xs.length) xs =
      G ++ xs ++ List.replicate (z - xs.length) 0 := by
  unfold setSlice
  rw [List.take_left, show max G.length (G.length + xs.length) =
    G.length + xs.length by omega]
  have : (G ++ List.replicate z 0).drop (G.length + xs.length) =
      List.replicate (z - xs.length) 0 := by
    rw [List.drop_append_eq_append_drop]
    rw [List.drop_eq_nil_of_le (by omega), List.drop_replicate]
    simp only [List.nil_append]
    congr 1
    omega
  rw [this]

theorem ok_bind {ε α β : Type} (a : α) (f : α → Except ε β) :
    (Except.ok a >>= f) = f a := rfl

theorem packIntoU16_zeros_end (G : List Nat) (z v : Nat) (hz : 2 ≤ z)
    (hv : v < 2 ^ 16) :
    packIntoU16 (G ++ List.replicate z 0) G.length v =
      .ok (G ++ u16le v ++ List.replicate (z - 2) 0) := by
  have := packIntoU16_zeros G [] z v hz hv
  simpa using this

theorem spriteDataSize_foldl_shift (sprites : List Sprite) :
    ∀ s, sprites.foldl (fun t sp => t + 2 + sp.pixel_data.length) s =
      s + sprites.foldl (fun t sp => t + 2 + sp.pixel_data.length) 0 := by
  induction sprites with
  | nil => intro s; simp
  | cons sp rest ih =>
    intro s
    simp only [List.foldl_cons]
    rw [ih (s + 2 + sp.pixel_data.length), ih (0 + 2 + sp.pixel_data.length)]
    omega

theorem spriteDataSize_cons (sp : Sprite) (rest : List Sprite) :
    spriteDataSize (sp :: rest) =
      2 + sp.pixel_data.length + spriteDataSize rest := by
  unfold spriteDataSize
  simp only [List.foldl_cons]
  rw [spriteDataSize_foldl_shift]

/-- The sprite loop of `_compile`: starting from a buffer whose written
header prefix is `H`, whose written data prefix is `D`, with `zm` header
zeros and `zd` data zeros left, it writes the offset table and the
length-prefixed tile records and consumes exactly `4 * |sprites|` header
bytes and `spriteDataSize sprites` data bytes. -/
theorem compileSprites_spec :
    ∀ (sprites : List Sprite) (H D : List Nat) (zm zd : Nat),
      4 * sprites.length ≤ zm →
      spriteDataSize sprites ≤ zd →
      (∀ sp ∈ sprites, sp.pixel_data.length < 2 ^ 16) →
      (∀ o ∈ offsList (H.length + zm + D.length) sprites, o < 2 ^ 32) →
      sprites.foldlM compileSprite
        ⟨H ++ List.replicate zm 0 ++ (D ++ List.replicate zd 0), H.length,
          H.length + zm + D.length⟩ =
        .ok ⟨(H ++ offsetsBytes (H.length + zm + D.length) sprites) ++
          List.replicate (zm - 4 * sprites.length) 0 ++
          ((D ++ dataBytes sprites) ++
            List.replicate (zd - spriteDataSize sprites) 0),
          H.length + 4 * sprites.length,
          H.length + zm + D.length + spriteDataSize sprites⟩ := by
  intro sprites
  induction sprites with
  | nil =>
    intro H D zm zd hzm hzd hlen hbound
    rw [List.foldlM_nil]
    rw [show offsetsBytes (H.length + zm + D.length) [] = [] from rfl,
      show dataBytes [] = [] from rfl,
      show spriteDataSize [] = 0 from rfl]
    simp
    rfl
  | cons sp rest ih =>
    intro H D zm zd hzm hzd hlen hbound
    simp only [List.length_cons] at hzm
    rw [spriteDataSize_cons] at hzd
    rw [List.foldlM_cons]
    have hsp : sp.pixel_data.length < 2 ^ 16 := hlen sp (by simp)
    have hcons : offsList (H.length + zm + D.length) (sp :: rest) =
        (H.length + zm + D.length) ::
          offsList (H.length + zm + D.length + 2 + sp.pixel_data.length) rest :=
      rfl
    have hhead : H.length + zm + D.length < 2 ^ 32 :=
      hbound _ (by rw [hcons]; exact List.mem_cons_self _ _)
    have hstep : compileSprite
        ⟨H ++ List.replicate zm 0 ++ (D ++ List.replicate zd 0), H.length,
          H.length + zm + D.length⟩ sp =
        .ok ⟨(H ++ u32le (H.length + zm + D.length)) ++
          List.replicate (zm - 4) 0 ++
          ((D ++ u16le sp.pixel_data.length ++ sp.pixel_data) ++
            List.replicate (zd - (2 + sp.pixel_data.length)) 0),
          (H ++ u32le (H.length + zm + D.length)).length,
          (H ++ u32le (H.length + zm + D.length)).length + (zm - 4) +
            (D ++ u16le sp.pixel_data.length ++ sp.pixel_data).length⟩ := by
      unfold compileSprite
      rw [packIntoU32_zeros H (D ++ List.replicate zd 0) zm
        (H.length + zm + D.length) (by omega) hhead]
      rw [ok_bind]
      dsimp only
      generalize hU : u32le (H.length + zm + D.length) = U
      have hUlen : U.length = 4 := by
        rw [← hU]
        rfl
      have hG1 : H ++ U ++ List.replicate (zm - 4) 0 ++
          (D ++ List.replicate zd 0) =
          (H ++ U ++ List.replicate (zm - 4) 0 ++ D) ++ List.replicate zd 0 := by
        simp [List.append_assoc]
      rw [hG1]
      have hpos1 : H.length + zm + D.length =
          (H ++ U ++ List.replicate (zm - 4) 0 ++ D).length := by
        simp only [List.length_append, List.length_replicate, hUlen]
        omega
      rw [hpos1]
      rw [packIntoU16_zeros_end _ zd sp.pixel_data.length (by omega) hsp]
      rw [ok_bind]
      have hpos2 : (H ++ U ++ List.replicate (zm - 4) 0 ++ D).length + 2 =
          ((H ++ U ++ List.replicate (zm - 4) 0 ++ D) ++
            u16le sp.pixel_data.length).length := by
        simp [u16le, List.length_append]
        omega
      rw [hpos2]
      rw [setSlice_end ((H ++ U ++ List.replicate (zm - 4) 0 ++ D) ++
        u16le sp.pixel_data.length) sp.pixel_data (zd - 2) (by omega)]
      refine congrArg Except.ok ?_
      simp only [CState.mk.injEq]
      refine ⟨?_, ?_, ?_⟩
      · rw [show zd - 2 - sp.pixel_data.length =
          zd - (2 + sp.pixel_data.length) from by omega]
        simp [List.append_assoc]
      · simp only [List.length_append, List.length_replicate, hUlen, u16le,
          List.length_cons, List.length_nil]
      · simp only [List.length_append, List.length_replicate, hUlen, u16le,
          List.length_cons, List.length_nil]
        omega
    rw [hstep, ok_bind]
    rw [ih (H ++ u32le (H.length + zm + D.length))
      (D ++ u16le sp.pixel_data.length ++ sp.pixel_data)
      (zm - 4) (zd - (2 + sp.pixel_data.length))
      (by omega) (by omega) (fun q hq => hlen q (by simp [hq]))
      (by
        intro o ho
        refine hbound o ?_
        rw [show (H ++ u32le (H.length + zm + D.length)).length + (zm - 4) +
            (D ++ u16le sp.pixel_data.length ++ sp.pixel_data).length =
          H.length + zm + D.length + 2 + sp.pixel_data.length from by
          simp only [List.length_append, u32le, u16le, List.length_cons,
            List.length_nil]
          omega] at ho
        rw [hcons]
        exact List.mem_cons_of_mem _ ho)]
    refine congrArg Except.ok ?_
    simp only [CState.mk.injEq]
    have hcur : (H ++ u32le (H.length + zm + D.length)).length + (zm - 4) +
        (D ++ u16le sp.pixel_data.length ++ sp.pixel_data).length =
        H.length + zm + D.length + (2 + sp.pixel_data.length) := by
      simp only [List.length_append, u32le, u16le, List.length_cons,
        List.length_nil]
      omega
    refine ⟨?_, ?_, ?_⟩
    · rw [hcur]
      rw [show offsetsBytes (H.length + zm + D.length) (sp :: rest) =
        u32le (H.length + zm + D.length) ++
          offsetsBytes (H.length + zm + D.length + 2 + sp.pixel_data.length)
            rest from rfl]
      rw [show dataBytes (sp :: rest) =
        u16le sp.pixel_data.length ++ sp.pixel_data ++ dataBytes rest from rfl]
      rw [show H.length + zm + D.length + (2 + sp.pixel_data.length) =
        H.length + zm + D.length + 2 + sp.pixel_data.length from by omega]
      rw [show zm - 4 - 4 * rest.length = zm - 4 * (rest.length + 1) from by
        omega]
      rw [show zd - (2 + sp.pixel_data.length) - spriteDataSize rest =
        zd - (2 + sp.pixel_data.length + spriteDataSize rest) from by omega]
      rw [spriteDataSize_cons]
      simp [List.append_assoc]
    · simp only [List.length_append, u32le, List.length_cons, List.length_nil,
        List.length_cons]
      omega
    · rw [hcur, spriteDataSize_cons]
      omega

theorem offsetsBytes_length (sprites : List Sprite) :
    ∀ c, (offsetsBytes c sprites).length = 4 * sprites.length := by
  induction sprites with
  | nil => intro c; rfl
  | cons sp rest ih =>
    intro c
    simp only [offsetsBytes, List.length_append, ih (c + 2 + sp.pixel_data.length),
      List.length_cons]
    rw [show (u32le c).length = 4 from rfl]
    omega

theorem dataBytes_length (sprites : List Sprite) :
    (dataBytes sprites).length = spriteDataSize sprites := by
  induction sprites with
  | nil => rfl
  | cons sp rest ih =>
    rw [spriteDataSize_cons]
    simp only [dataBytes, List.length_append, ih]
    rw [show (u16le sp.pixel_data.length).length = 2 from rfl]

/-- The image loop of `_compile`, with the zero regions sized exactly for
the remaining pictures: it writes every picture header block and every
tile record and consumes the zero regions completely. -/
theorem compileImages_spec :
    ∀ (imgs : List PicImage) (H D : List Nat),
      (∀ img ∈ imgs, img.width < 256 ∧ img.height < 256 ∧
        img.bg_color.r < 256 ∧ img.bg_color.g < 256 ∧ img.bg_color.b < 256 ∧
        img.sprites.length = img.width * img.height ∧
        ∀ sp ∈ img.sprites, sp.pixel_data.length < 2 ^ 16) →
      (∀ o ∈ allOffs
        (H.length + (imgs.map (fun i => 5 + i.num_sprites * 4)).sum + D.length)
        imgs, o < 2 ^ 32) →
      imgs.foldlM compileImage
        ⟨H ++ List.replicate ((imgs.map (fun i => 5 + i.num_sprites * 4)).sum) 0 ++
          (D ++ List.replicate ((imgs.map (fun i => spriteDataSize i.sprites)).sum) 0),
          H.length,
          H.length + (imgs.map (fun i => 5 + i.num_sprites * 4)).sum + D.length⟩ =
        .ok ⟨(H ++ headersBytes
            (H.length + (imgs.map (fun i => 5 + i.num_sprites * 4)).sum + D.length)
            imgs) ++ (D ++ allDataBytes imgs),
          H.length + (imgs.map (fun i => 5 + i.num_sprites * 4)).sum,
          H.length + (imgs.map (fun i => 5 + i.num_sprites * 4)).sum + D.length +
            (imgs.map (fun i => spriteDataSize i.sprites)).sum⟩ := by
  intro imgs
  induction imgs with
  | nil =>
    intro H D hwf hbound
    rw [List.foldlM_nil]
    simp [headersBytes, allDataBytes]
    rfl
  | cons img rest ih =>
    intro H D hwf hbound
    obtain ⟨hw, hh, hr, hg, hb, hns, hsplen⟩ := hwf img (by simp)
    simp only [List.map_cons, List.sum_cons] at hbound ⊢
    rw [List.foldlM_cons]
    have hnseq : img.num_sprites = img.width * img.height := rfl
    have hconsAll : allOffs (H.length + (5 + img.num_sprites * 4 +
        (List.map (fun i => 5 + i.num_sprites * 4) rest).sum) + D.length)
        (img :: rest) =
      offsList (H.length + (5 + img.num_sprites * 4 +
        (List.map (fun i => 5 + i.num_sprites * 4) rest).sum) + D.length)
        img.sprites ++
      allOffs (H.length + (5 + img.num_sprites * 4 +
        (List.map (fun i => 5 + i.num_sprites * 4) rest).sum) + D.length +
        spriteDataSize img.sprites) rest := rfl
    have himg : compileImage
        ⟨H ++ List.replicate (5 + img.num_sprites * 4 +
            (List.map (fun i => 5 + i.num_sprites * 4) rest).sum) 0 ++
          (D ++ List.replicate (spriteDataSize img.sprites +
            (List.map (fun i => spriteDataSize i.sprites) rest).sum) 0),
          H.length,
          H.length + (5 + img.num_sprites * 4 +
            (List.map (fun i => 5 + i.num_sprites * 4) rest).sum) + D.length⟩ img =
        .ok ⟨(H ++ [img.width] ++ [img.height] ++ [img.bg_color.r] ++
            [img.bg_color.g] ++ [img.bg_color.b] ++
            offsetsBytes (H.length + (5 + img.num_sprites * 4 +
              (List.map (fun i => 5 + i.num_sprites * 4) rest).sum) + D.length)
              img.sprites) ++
          List.replicate ((List.map (fun i => 5 + i.num_sprites * 4) rest).sum) 0 ++
          ((D ++ dataBytes img.sprites) ++
            List.replicate ((List.map (fun i => spriteDataSize i.sprites) rest).sum) 0),
          (H ++ [img.width] ++ [img.height] ++ [img.bg_color.r] ++
            [img.bg_color.g] ++ [img.bg_color.b] ++
            offsetsBytes (H.length + (5 + img.num_sprites * 4 +
              (List.map (fun i => 5 + i.num_sprites * 4) rest).sum) + D.length)
              img.sprites).length,
          (H ++ [img.width] ++ [img.height] ++ [img.bg_color.r] ++
            [img.bg_color.g] ++ [img.bg_color.b] ++
            offsetsBytes (H.length + (5 + img.num_sprites * 4 +
              (List.map (fun i => 5 + i.num_sprites * 4) rest).sum) + D.length)
              img.sprites).length +
            (List.map (fun i => 5 + i.num_sprites * 4) rest).sum +
            (D ++ dataBytes img.sprites).length⟩ := by
      unfold compileImage
      rw [setByte_zeros H _ _ img.width (by omega) hw, ok_bind]
      rw [show H.length + 1 = (H ++ [img.width]).length by simp]
      rw [setByte_zeros (H ++ [img.width]) _ _ img.height (by omega) hh, ok_bind]
      rw [show H.length + 2 = (H ++ [img.width] ++ [img.height]).length by simp]
      rw [setByte_zeros (H ++ [img.width] ++ [img.height]) _ _ img.bg_color.r
        (by omega) hr, ok_bind]
      rw [show H.length + 3 =
        (H ++ [img.width] ++ [img.height] ++ [img.bg_color.r]).length by simp]
      rw [setByte_zeros (H ++ [img.width] ++ [img.height] ++ [img.bg_color.r])
        _ _ img.bg_color.g (by omega) hg, ok_bind]
      rw [show H.length + 4 = (H ++ [img.width] ++ [img.height] ++
        [img.bg_color.r] ++ [img.bg_color.g]).length by simp]
      rw [setByte_zeros (H ++ [img.width] ++ [img.height] ++ [img.bg_color.r] ++
        [img.bg_color.g]) _ _ img.bg_color.b (by omega) hb, ok_bind]
      rw [show 5 + img.num_sprites * 4 +
        (List.map (fun i => 5 + i.num_sprites * 4) rest).sum - 1 - 1 - 1 - 1 - 1 =
        img.num_sprites * 4 +
          (List.map (fun i => 5 + i.num_sprites * 4) rest).sum from by omega]
      rw [show H.length + 5 = (H ++ [img.width] ++ [img.height] ++
        [img.bg_color.r] ++ [img.bg_color.g] ++ [img.bg_color.b]).length by simp]
      rw [show H.length + (5 + img.num_sprites * 4 +
          (List.map (fun i => 5 + i.num_sprites * 4) rest).sum) + D.length =
        (H ++ [img.width] ++ [img.height] ++ [img.bg_color.r] ++
          [img.bg_color.g] ++ [img.bg_color.b]).length +
          (img.num_sprites * 4 +
            (List.map (fun i => 5 + i.num_sprites * 4) rest).sum) + D.length from by
        simp
        omega]
      rw [compileSprites_spec img.sprites
        (H ++ [img.width] ++ [img.height] ++ [img.bg_color.r] ++
          [img.bg_color.g] ++ [img.bg_color.b]) D
        (img.num_sprites * 4 + (List.map (fun i => 5 + i.num_sprites * 4) rest).sum)
        (spriteDataSize img.sprites +
          (List.map (fun i => spriteDataSize i.sprites) rest).sum)
        (by rw [hns, ← hnseq]; omega) (by omega) hsplen
        (by
          intro o ho
          refine hbound o ?_
          rw [show (H ++ [img.width] ++ [img.height] ++ [img.bg_color.r] ++
              [img.bg_color.g] ++ [img.bg_color.b]).length +
              (img.num_sprites * 4 +
                (List.map (fun i => 5 + i.num_sprites * 4) rest).sum) +
              D.length =
            H.length + (5 + img.num_sprites * 4 +
              (List.map (fun i => 5 + i.num_sprites * 4) rest).sum) + D.length
            from by
            simp only [List.length_append, List.length_cons, List.length_nil]
            omega] at ho
          rw [hconsAll]
          exact List.mem_append_left _ ho)]
      refine congrArg Except.ok ?_
      simp only [CState.mk.injEq]
      refine ⟨?_, ?_, ?_⟩
      · rw [show img.num_sprites * 4 +
            (List.map (fun i => 5 + i.num_sprites * 4) rest).sum -
            4 * img.sprites.length =
          (List.map (fun i => 5 + i.num_sprites * 4) rest).sum from by
          rw [hns, ← hnseq]; omega]
        rw [show spriteDataSize img.sprites +
            (List.map (fun i => spriteDataSize i.sprites) rest).sum -
            spriteDataSize img.sprites =
          (List.map (fun i => spriteDataSize i.sprites) rest).sum from by omega]
      · simp only [List.length_append, List.length_cons, List.length_nil,
          offsetsBytes_length]
      · simp only [List.length_append, List.length_cons, List.length_nil,
          offsetsBytes_length, dataBytes_length]
        rw [hns, ← hnseq]
        omega
    rw [himg, ok_bind]
    rw [ih (H ++ [img.width] ++ [img.height] ++ [img.bg_color.r] ++
        [img.bg_color.g] ++ [img.bg_color.b] ++
        offsetsBytes (H.length + (5 + img.num_sprites * 4 +
          (List.map (fun i => 5 + i.num_sprites * 4) rest).sum) + D.length)
          img.sprites)
      (D ++ dataBytes img.sprites)
      (fun q hq => hwf q (by simp [hq]))
      (by
        intro o ho
        refine hbound o ?_
        rw [show (H ++ [img.width] ++ [img.height] ++ [img.bg_color.r] ++
            [img.bg_color.g] ++ [img.bg_color.b] ++
            offsetsBytes (H.length + (5 + img.num_sprites * 4 +
              (List.map (fun i => 5 + i.num_sprites * 4) rest).sum) + D.length)
              img.sprites).length +
            (List.map (fun i => 5 + i.num_sprites * 4) rest).sum +
            (D ++ dataBytes img.sprites).length =
          H.length + (5 + img.num_sprites * 4 +
            (List.map (fun i => 5 + i.num_sprites * 4) rest).sum) + D.length +
            spriteDataSize img.sprites from by
          simp only [List.length_append, List.length_cons, List.length_nil,
            offsetsBytes_length, dataBytes_length]
          rw [hns, ← hnseq]
          omega] at ho
        rw [hconsAll]
        exact List.mem_append_right _ ho)]
    refine congrArg Except.ok ?_
    simp only [CState.mk.injEq]
    have hlenH2 : (H ++ [img.width] ++ [img.height] ++ [img.bg_color.r] ++
        [img.bg_color.g] ++ [img.bg_color.b] ++
        offsetsBytes (H.length + (5 + img.num_sprites * 4 +
          (List.map (fun i => 5 + i.num_sprites * 4) rest).sum) + D.length)
          img.sprites).length = H.length + 5 + 4 * img.num_sprites := by
      simp only [List.length_append, List.length_cons, List.length_nil,
        offsetsBytes_length]
      rw [hns]
      rw [show img.width * img.height = img.num_sprites from rfl]
    have hlenD2 : (D ++ dataBytes img.sprites).length =
        D.length + spriteDataSize img.sprites := by
      simp only [List.length_append, dataBytes_length]
    refine ⟨?_, ?_, ?_⟩
    · rw [show headersBytes (H.length + (5 + img.num_sprites * 4 +
          (List.map (fun i => 5 + i.num_sprites * 4) rest).sum) + D.length)
          (img :: rest) =
        img.width :: img.height :: img.bg_color.r :: img.bg_color.g ::
          img.bg_color.b ::
          (offsetsBytes (H.length + (5 + img.num_sprites * 4 +
            (List.map (fun i => 5 + i.num_sprites * 4) rest).sum) + D.length)
            img.sprites ++
            headersBytes (H.length + (5 + img.num_sprites * 4 +
              (List.map (fun i => 5 + i.num_sprites * 4) rest).sum) + D.length +
              spriteDataSize img.sprites) rest) from rfl]
      rw [show allDataBytes (img :: rest) =
        dataBytes img.sprites ++ allDataBytes rest from rfl]
      rw [show (H ++ [img.width] ++ [img.height] ++ [img.bg_color.r] ++
          [img.bg_color.g] ++ [img.bg_color.b] ++
          offsetsBytes (H.length + (5 + img.num_sprites * 4 +
            (List.map (fun i => 5 + i.num_sprites * 4) rest).sum) + D.length)
            img.sprites).length +
          (List.map (fun i => 5 + i.num_sprites * 4) rest).sum +
          (D ++ dataBytes img.sprites).length =
        H.length + (5 + img.num_sprites * 4 +
          (List.map (fun i => 5 + i.num_sprites * 4) rest).sum) + D.length +
          spriteDataSize img.sprites from by
        rw [hlenH2, hlenD2]
        omega]
      simp [List.append_assoc]
    · rw [hlenH2]
      omega
    · rw [hlenH2, hlenD2]
      omega

theorem hdrFold (imgs : List PicImage) :
    ∀ s, imgs.foldl (fun p img => p + 5 + img.num_sprites * 4) s =
      s + (imgs.map (fun i => 5 + i.num_sprites * 4)).sum := by
  induction imgs with
  | nil => intro s; simp
  | cons img rest ih =>
    intro s
    simp only [List.foldl_cons, List.map_cons, List.sum_cons, ih]
    omega

theorem headerSize_eq (pic : Pic) :
    headerSize pic =
      6 + (pic.images.map (fun i => 5 + i.num_sprites * 4)).sum := by
  unfold headerSize
  rw [hdrFold]

theorem totalSplit (pic : Pic) :
    calculateTotalSize pic =
      6 + (pic.images.map (fun i => 5 + i.num_sprites * 4)).sum +
        (pic.images.map (fun i => spriteDataSize i.sprites)).sum := by
  unfold calculateTotalSize
  have haux : ∀ (imgs : List PicImage) (s : Nat),
      imgs.foldl (fun size img => size + 5 + img.num_sprites * 4 +
        img.sprites.foldl (fun t sp => t + 2 + sp.pixel_data.length) 0) s =
      s + (imgs.map (fun i => 5 + i.num_sprites * 4)).sum +
        (imgs.map (fun i => spriteDataSize i.sprites)).sum := by
    intro imgs
    induction imgs with
    | nil => intro s; simp
    | cons img rest ih =>
      intro s
      simp only [List.foldl_cons, List.map_cons, List.sum_cons, ih]
      rw [show img.sprites.foldl (fun t sp => t + 2 + sp.pixel_data.length) 0 =
        spriteDataSize img.sprites from rfl]
      omega
  rw [haux]

theorem headersBytes_length (imgs : List PicImage)
    (hns : ∀ img ∈ imgs, img.sprites.length = img.width * img.height) :
    ∀ c, (headersBytes c imgs).length =
      (imgs.map (fun i => 5 + i.num_sprites * 4)).sum := by
  induction imgs with
  | nil => intro c; rfl
  | cons img rest ih =>
    intro c
    simp only [headersBytes, List.length_cons, List.length_append,
      offsetsBytes_length, List.map_cons, List.sum_cons]
    rw [ih (fun q hq => hns q (by simp [hq]))]
    rw [hns img (by simp), show img.width * img.height = img.num_sprites from rfl]
    omega

theorem allDataBytes_length (imgs : List PicImage) :
    (allDataBytes imgs).length =
      (imgs.map (fun i => spriteDataSize i.sprites)).sum := by
  induction imgs with
  | nil => rfl
  | cons img rest ih =>
    simp only [allDataBytes, List.length_append, dataBytes_length, ih,
      List.map_cons, List.sum_cons]

theorem offsList_mem_le (sprites : List Sprite) :
    ∀ c o, o ∈ offsList c sprites →
      c ≤ o ∧ o + 2 ≤ c + spriteDataSize sprites := by
  induction sprites with
  | nil => intro c o ho; cases ho
  | cons sp rest ih =>
    intro c o ho
    rw [show offsList c (sp :: rest) =
      c :: offsList (c + 2 + sp.pixel_data.length) rest from rfl] at ho
    rw [spriteDataSize_cons]
    rcases List.mem_cons.mp ho with rfl | ho'
    · omega
    · have := ih _ _ ho'
      omega

theorem allOffs_mem_le (imgs : List PicImage) :
    ∀ c o, o ∈ allOffs c imgs →
      c ≤ o ∧ o + 2 ≤ c + (imgs.map (fun i => spriteDataSize i.sprites)).sum := by
  induction imgs with
  | nil => intro c o ho; cases ho
  | cons img rest ih =>
    intro c o ho
    rw [show allOffs c (img :: rest) =
      offsList c img.sprites ++
        allOffs (c + spriteDataSize img.sprites) rest from rfl] at ho
    simp only [List.map_cons, List.sum_cons]
    rcases List.mem_append.mp ho with h | h
    · have := offsList_mem_le img.sprites c o h
      omega
    · have := ih _ _ h
      omega

theorem spriteDataSize_eq_sum (sprites : List Sprite) :
    spriteDataSize sprites =
      (sprites.map (fun sp => 2 + sp.pixel_data.length)).sum := by
  induction sprites with
  | nil => rfl
  | cons sp rest ih =>
    rw [spriteDataSize_cons, ih]
    simp only [List.map_cons, List.sum_cons]

/-- When the declared total size fits a `u32`, so does every tile-record
position the writer packs into an offset table. -/
theorem offs_of_htot (pic : Pic) (htot : calculateTotalSize pic ≤ 2 ^ 32) :
    ∀ o ∈ allOffs (headerSize pic) pic.images, o < 2 ^ 32 := by
  intro o ho
  have hb := allOffs_mem_le pic.images _ o ho
  rw [headerSize_eq] at hb
  rw [totalSplit] at htot
  omega

/-- Writer correctness: under the field-range and tile-count invariants,
`_compile` succeeds and produces exactly the canonical layout. -/
theorem compile_eq_layout (pic : Pic)
    (hsig : pic.signature < 2 ^ 32)
    (hcount : pic.images.length < 2 ^ 16)
    (hoffs : ∀ o ∈ allOffs (headerSize pic) pic.images, o < 2 ^ 32)
    (hwf : ∀ img ∈ pic.images, img.width < 256 ∧ img.height < 256 ∧
      img.bg_color.r < 256 ∧ img.bg_color.g < 256 ∧ img.bg_color.b < 256 ∧
      img.sprites.length = img.width * img.height ∧
      ∀ sp ∈ img.sprites, sp.pixel_data.length < 2 ^ 16) :
    compile pic = .ok (layoutBytes pic) := by
  have htot6 : 6 ≤ calculateTotalSize pic := by
    rw [totalSplit]
    omega
  unfold compile
  dsimp only
  have h1 : packIntoU32 (List.replicate (calculateTotalSize pic) 0) 0
      pic.signature =
      .ok (u32le pic.signature ++
        List.replicate (calculateTotalSize pic - 4) 0) := by
    have := packIntoU32_zeros [] [] (calculateTotalSize pic) pic.signature
      (by omega) hsig
    simpa using this
  rw [h1, ok_bind]
  have h2 : packIntoU16 (u32le pic.signature ++
      List.replicate (calculateTotalSize pic - 4) 0) 4 pic.num_images =
      .ok (u32le pic.signature ++ u16le pic.num_images ++
        List.replicate (calculateTotalSize pic - 6) 0) := by
    have := packIntoU16_zeros (u32le pic.signature) []
      (calculateTotalSize pic - 4) pic.num_images (by omega)
      (by rw [show pic.num_images = pic.images.length from rfl]; exact hcount)
    rw [show (u32le pic.signature).length = 4 from rfl] at this
    rw [show calculateTotalSize pic - 4 - 2 = calculateTotalSize pic - 6 from by
      omega] at this
    simpa using this
  rw [h2, ok_bind]
  rw [hdrFold pic.images 6]
  have hfold := compileImages_spec pic.images
    (u32le pic.signature ++ u16le pic.num_images) [] hwf
    (by
      intro o ho
      rw [show (u32le pic.signature ++ u16le pic.num_images).length +
          (pic.images.map (fun i => 5 + i.num_sprites * 4)).sum +
          ([] : List Nat).length =
        6 + (pic.images.map (fun i => 5 + i.num_sprites * 4)).sum from by
        simp only [List.length_nil, Nat.add_zero,
          show (u32le pic.signature ++ u16le pic.num_images).length = 6
            from rfl]] at ho
      rw [← headerSize_eq] at ho
      exact hoffs o ho)
  rw [show (u32le pic.signature ++ u16le pic.num_images).length = 6 from rfl,
    List.length_nil, Nat.add_zero] at hfold
  rw [List.append_assoc (u32le pic.signature ++ u16le pic.num_images)] at hfold
  rw [List.nil_append, ← List.replicate_add] at hfold
  rw [show (pic.images.map (fun i => 5 + i.num_sprites * 4)).sum +
      (pic.images.map (fun i => spriteDataSize i.sprites)).sum =
    calculateTotalSize pic - 6 from by rw [totalSplit]; omega] at hfold
  rw [hfold, ok_bind]
  dsimp only
  simp only [List.nil_append]
  have hlenbuf : ((u32le pic.signature ++ u16le pic.num_images ++
      headersBytes (6 + (pic.images.map (fun i => 5 + i.num_sprites * 4)).sum)
        pic.images) ++ allDataBytes pic.images).length =
      6 + (pic.images.map (fun i => 5 + i.num_sprites * 4)).sum +
        (pic.images.map (fun i => spriteDataSize i.sprites)).sum := by
    rw [List.length_append, List.length_append,
      headersBytes_length pic.images (fun q hq => (hwf q hq).2.2.2.2.2.1),
      allDataBytes_length,
      show (u32le pic.signature ++ u16le pic.num_images).length = 6 from rfl]
  rw [show 6 + (pic.images.map (fun i => 5 + i.num_sprites * 4)).sum +
      (pic.images.map (fun i => spriteDataSize i.sprites)).sum =
    ((u32le pic.signature ++ u16le pic.num_images ++
      headersBytes (6 + (pic.images.map (fun i => 5 + i.num_sprites * 4)).sum)
        pic.images) ++ allDataBytes pic.images).length from hlenbuf.symm,
    List.take_length]
  unfold layoutBytes
  rw [headerSize_eq]

/-- C7: for an archive whose pictures each carry exactly `width * height`
tiles and whose written fields are in range (signature a `u32`, picture
count a `u16`, width/height/background bytes, payload lengths `u16`,
declared total size at most `2^32`), `_compile` succeeds and the buffer
it returns is exactly `6 + Σ (5 + 4 * tiles_i) + Σ (2 + |payload_j|)`
bytes long. -/
theorem c7_serialize_length (pic : Pic)
    (hsig : pic.signature < 2 ^ 32)
    (hcount : pic.images.length < 2 ^ 16)
    (htot : calculateTotalSize pic ≤ 2 ^ 32)
    (hwf : ∀ img ∈ pic.images, img.width < 256 ∧ img.height < 256 ∧
      img.bg_color.r < 256 ∧ img.bg_color.g < 256 ∧ img.bg_color.b < 256 ∧
      img.sprites.length = img.width * img.height ∧
      ∀ sp ∈ img.sprites, sp.pixel_data.length < 2 ^ 16) :
    ∃ buf, compile pic = .ok buf ∧
      buf.length =
        6 + (pic.images.map (fun i => 5 + 4 * (i.width * i.height))).sum +
          (pic.images.map
            (fun i =>
              (i.sprites.map (fun sp => 2 + sp.pixel_data.length)).sum)).sum := by
  refine ⟨layoutBytes pic,
    compile_eq_layout pic hsig hcount (offs_of_htot pic htot) hwf, ?_⟩
  unfold layoutBytes
  simp only [List.length_append]
  rw [headersBytes_length pic.images (fun q hq => (hwf q hq).2.2.2.2.2.1)
      (headerSize pic),
    allDataBytes_length,
    show (u32le pic.signature).length = 4 from rfl,
    show (u16le pic.num_images).length = 2 from rfl]
  have hH : (pic.images.map (fun i => 5 + i.num_sprites * 4)).sum =
      (pic.images.map (fun i => 5 + 4 * (i.width * i.height))).sum := by
    refine congrArg List.sum (List.map_congr_left ?_)
    intro a _
    show 5 + a.width * a.height * 4 = 5 + 4 * (a.width * a.height)
    ring
  have hD : (pic.images.map (fun i => spriteDataSize i.sprites)).sum =
      (pic.images.map
        (fun i =>
          (i.sprites.map (fun sp => 2 + sp.pixel_data.length)).sum)).sum := by
    refine congrArg List.sum (List.map_congr_left ?_)
    intro a _
    exact spriteDataSize_eq_sum a.sprites
  omega

theorem c7_serialize_length_witness :
    ∃ buf, compile picA = .ok buf ∧
      buf.length =
        6 + (picA.images.map (fun i => 5 + 4 * (i.width * i.height))).sum +
          (picA.images.map
            (fun i =>
              (i.sprites.map (fun sp => 2 + sp.pixel_data.length)).sum)).sum :=
  c7_serialize_length picA (by decide) (by decide) (by decide) (by decide)

theorem bind_ok_inv {ε α β : Type} (x : Except ε α) (f : α → Except ε β) (b : β)
    (h : x >>= f = .ok b) : ∃ a, x = .ok a ∧ f a = .ok b := by
  cases x with
  | ok a => exact ⟨a, rfl, h⟩
  | error e => exact Except.noConfusion h

theorem packIntoU32_ok_inv (buf : List Nat) (pos v : Nat) (b : List Nat)
    (h : packIntoU32 buf pos v = .ok b) : v < 2 ^ 32 := by
  unfold packIntoU32 at h
  split at h
  · split at h
    · assumption
    · cases h
  · cases h

theorem packIntoU16_ok_inv (buf : List Nat) (pos v : Nat) (b : List Nat)
    (h : packIntoU16 buf pos v = .ok b) : v < 2 ^ 16 := by
  unfold packIntoU16 at h
  split at h
  · split at h
    · assumption
    · cases h
  · cases h

theorem setByte_ok_inv (buf : List Nat) (pos v : Nat) (b : List Nat)
    (h : setByte buf pos v = .ok b) : v < 256 := by
  unfold setByte at h
  split at h
  · split at h
    · assumption
    · cases h
  · cases h

theorem compileSprite_ok_inv (st : CState) (sp : Sprite) (st' : CState)
    (h : compileSprite st sp = .ok st') :
    st.sdp < 2 ^ 32 ∧ sp.pixel_data.length < 2 ^ 16 ∧
      st'.sdp = st.sdp + 2 + sp.pixel_data.length := by
  unfold compileSprite at h
  obtain ⟨b1, hb1, h⟩ := bind_ok_inv _ _ _ h
  obtain ⟨b2, hb2, h⟩ := bind_ok_inv _ _ _ h
  refine ⟨packIntoU32_ok_inv _ _ _ _ hb1, packIntoU16_ok_inv _ _ _ _ hb2, ?_⟩
  cases h
  rfl

theorem compileSprites_ok_inv :
    ∀ (sprites : List Sprite) (st st' : CState),
      sprites.foldlM compileSprite st = .ok st' →
      (∀ o ∈ offsList st.sdp sprites, o < 2 ^ 32) ∧
      (∀ sp ∈ sprites, sp.pixel_data.length < 2 ^ 16) ∧
      st'.sdp = st.sdp + spriteDataSize sprites := by
  intro sprites
  induction sprites with
  | nil =>
    intro st st' h
    rw [List.foldlM_nil] at h
    obtain rfl : st = st' := Except.ok.inj h
    refine ⟨(by intro o ho; cases ho), (by intro sp hsp; cases hsp), ?_⟩
    rw [show spriteDataSize [] = 0 from rfl]
    omega
  | cons sp rest ih =>
    intro st st' h
    rw [List.foldlM_cons] at h
    obtain ⟨st1, hst1, hrest⟩ := bind_ok_inv _ _ _ h
    obtain ⟨hsdp32, hlen16, hsdp1⟩ := compileSprite_ok_inv st sp st1 hst1
    obtain ⟨hoffs, hlens, hsdp'⟩ := ih st1 st' hrest
    refine ⟨?_, ?_, ?_⟩
    · intro o ho
      rw [show offsList st.sdp (sp :: rest) =
        st.sdp :: offsList (st.sdp + 2 + sp.pixel_data.length) rest
        from rfl] at ho
      rcases List.mem_cons.mp ho with rfl | ho'
      · exact hsdp32
      · exact hoffs o (by rw [hsdp1]; exact ho')
    · intro q hq
      rcases List.mem_cons.mp hq with rfl | hq'
      · exact hlen16
      · exact hlens q hq'
    · rw [hsdp', hsdp1, spriteDataSize_cons]
      omega

theorem compileImage_ok_inv (st : CState) (img : PicImage) (st' : CState)
    (h : compileImage st img = .ok st') :
    img.width < 256 ∧ img.height < 256 ∧ img.bg_color.r < 256 ∧
      img.bg_color.g < 256 ∧ img.bg_color.b < 256 ∧
      (∀ o ∈ offsList st.sdp img.sprites, o < 2 ^ 32) ∧
      (∀ sp ∈ img.sprites, sp.pixel_data.length < 2 ^ 16) ∧
      st'.sdp = st.sdp + spriteDataSize img.sprites := by
  unfold compileImage at h
  obtain ⟨b1, hb1, h⟩ := bind_ok_inv _ _ _ h
  obtain ⟨b2, hb2, h⟩ := bind_ok_inv _ _ _ h
  obtain ⟨b3, hb3, h⟩ := bind_ok_inv _ _ _ h
  obtain ⟨b4, hb4, h⟩ := bind_ok_inv _ _ _ h
  obtain ⟨b5, hb5, h⟩ := bind_ok_inv _ _ _ h
  obtain ⟨hoffs, hlens, hsdp⟩ := compileSprites_ok_inv img.sprites _ st' h
  exact ⟨setByte_ok_inv _ _ _ _ hb1, setByte_ok_inv _ _ _ _ hb2,
    setByte_ok_inv _ _ _ _ hb3, setByte_ok_inv _ _ _ _ hb4,
    setByte_ok_inv _ _ _ _ hb5, hoffs, hlens, hsdp⟩

theorem compileImages_ok_inv :
    ∀ (imgs : List PicImage) (st st' : CState),
      imgs.foldlM compileImage st = .ok st' →
      (∀ img ∈ imgs, img.width < 256 ∧ img.height < 256 ∧
        img.bg_color.r < 256 ∧ img.bg_color.g < 256 ∧ img.bg_color.b < 256 ∧
        ∀ sp ∈ img.sprites, sp.pixel_data.length < 2 ^ 16) ∧
      (∀ o ∈ allOffs st.sdp imgs, o < 2 ^ 32) := by
  intro imgs
  induction imgs with
  | nil =>
    intro st st' h
    exact ⟨(by intro i hi; cases hi), (by intro o ho; cases ho)⟩
  | cons img rest ih =>
    intro st st' h
    rw [List.foldlM_cons] at h
    obtain ⟨st1, hst1, hrest⟩ := bind_ok_inv _ _ _ h
    obtain ⟨hw, hh, hr, hg, hb, hoffs1, hlens1, hsdp1⟩ :=
      compileImage_ok_inv st img st1 hst1
    obtain ⟨hwfr, hoffsr⟩ := ih st1 st' hrest
    refine ⟨?_, ?_⟩
    · intro q hq
      rcases List.mem_cons.mp hq with rfl | hq'
      · exact ⟨hw, hh, hr, hg, hb, hlens1⟩
      · exact hwfr q hq'
    · intro o ho
      rw [show allOffs st.sdp (img :: rest) =
        offsList st.sdp img.sprites ++
          allOffs (st.sdp + spriteDataSize img.sprites) rest from rfl] at ho
      rcases List.mem_append.mp ho with h1 | h1
      · exact hoffs1 o h1
      · exact hoffsr o (by rw [hsdp1]; exact h1)

/-- C8: whenever `_compile` returns a buffer for an archive whose
pictures each carry exactly `width * height` tiles, that buffer is the
canonical layout: the 6-byte file header, then every picture header
block (width, height, background RGB, offset table) contiguously in
picture order, then every length-prefixed tile record contiguously in
picture order and raster order with no gaps or overlaps starting right
after the last offset table (`headerSize`), each offset-table entry
being the absolute buffer position of its tile record. -/
theorem c8_canonical_layout (pic : Pic) (buf : List Nat)
    (htiles : ∀ img ∈ pic.images, img.sprites.length = img.width * img.height)
    (hok : compile pic = .ok buf) :
    buf = u32le pic.signature ++ u16le pic.num_images ++
      headersBytes (headerSize pic) pic.images ++ allDataBytes pic.images := by
  have h0 := hok
  unfold compile at h0
  obtain ⟨b1, hb1, h0⟩ := bind_ok_inv _ _ _ h0
  obtain ⟨b2, hb2, h0⟩ := bind_ok_inv _ _ _ h0
  obtain ⟨stf, hstf, h0⟩ := bind_ok_inv _ _ _ h0
  have hsig : pic.signature < 2 ^ 32 := packIntoU32_ok_inv _ _ _ _ hb1
  have hcount : pic.images.length < 2 ^ 16 := packIntoU16_ok_inv _ _ _ _ hb2
  obtain ⟨hwfr, hoffs⟩ := compileImages_ok_inv pic.images _ stf hstf
  have hlayout := compile_eq_layout pic hsig hcount hoffs
    (fun img hi => ⟨(hwfr img hi).1, (hwfr img hi).2.1, (hwfr img hi).2.2.1,
      (hwfr img hi).2.2.2.1, (hwfr img hi).2.2.2.2.1, htiles img hi,
      (hwfr img hi).2.2.2.2.2⟩)
  rw [hok] at hlayout
  rw [Except.ok.inj hlayout]
  rfl

theorem segAt_getD (B C : List Nat) (p t : Nat) (hseg : SegAt B p C)
    (ht : t < C.length) : B.getD (p + t) 0 = C.getD t 0 := by
  obtain ⟨A, D, hB, hA⟩ := hseg
  rw [hB, List.append_assoc, ← hA]
  rw [List.getD_append_right A (C ++ D) 0 (A.length + t) (by omega)]
  rw [show A.length + t - A.length = t from by omega]
  rw [List.getD_append C D 0 t ht]

theorem segAt_append_left (B X Y : List Nat) (p : Nat)
    (h : SegAt B p (X ++ Y)) : SegAt B p X := by
  obtain ⟨A, D, hB, hA⟩ := h
  exact ⟨A, Y ++ D, by rw [hB]; simp [List.append_assoc], hA⟩

theorem segAt_append_right (B X Y : List Nat) (p : Nat)
    (h : SegAt B p (X ++ Y)) : SegAt B (p + X.length) Y := by
  obtain ⟨A, D, hB, hA⟩ := h
  exact ⟨A ++ X, D, by rw [hB]; simp [List.append_assoc],
    by rw [List.length_append, hA]⟩

theorem segAt_length_le (B C : List Nat) (p : Nat) (h : SegAt B p C) :
    p + C.length ≤ B.length := by
  obtain ⟨A, D, hB, hA⟩ := h
  rw [hB]
  simp only [List.length_append]
  omega

theorem getItem_seg (B : List Nat) (p v : Nat) (hseg : SegAt B p [v]) :
    getItem B p = .ok v := by
  have hlen := segAt_length_le B [v] p hseg
  unfold getItem
  rw [if_pos (by simp only [List.length_cons, List.length_nil] at hlen; omega)]
  refine congrArg Except.ok ?_
  have := segAt_getD B [v] p 0 hseg (by simp)
  simpa using this

theorem unpackU16_seg (B : List Nat) (p v : Nat) (hseg : SegAt B p (u16le v))
    (hv : v < 2 ^ 16) : unpackU16 B p = .ok v := by
  have hlen := segAt_length_le B (u16le v) p hseg
  rw [show (u16le v).length = 2 from rfl] at hlen
  have h0 : B.getD (p + 0) 0 = (u16le v).getD 0 0 :=
    segAt_getD B (u16le v) p 0 hseg
      (by rw [show (u16le v).length = 2 from rfl]; omega)
  have h1 : B.getD (p + 1) 0 = (u16le v).getD 1 0 :=
    segAt_getD B (u16le v) p 1 hseg
      (by rw [show (u16le v).length = 2 from rfl]; omega)
  rw [show (u16le v).getD 0 0 = v % 256 from rfl] at h0
  rw [show (u16le v).getD 1 0 = v / 256 % 256 from rfl] at h1
  rw [show B.getD (p + 0) 0 = B.getD p 0 from by rw [Nat.add_zero]] at h0
  unfold unpackU16
  rw [if_pos (by omega), h0, h1]
  refine congrArg Except.ok ?_
  omega

theorem unpackU32_seg (B : List Nat) (p v : Nat) (hseg : SegAt B p (u32le v))
    (hv : v < 2 ^ 32) : unpackU32 B p = .ok v := by
  have hlen := segAt_length_le B (u32le v) p hseg
  rw [show (u32le v).length = 4 from rfl] at hlen
  have h0 : B.getD (p + 0) 0 = (u32le v).getD 0 0 :=
    segAt_getD B (u32le v) p 0 hseg
      (by rw [show (u32le v).length = 4 from rfl]; omega)
  have h1 : B.getD (p + 1) 0 = (u32le v).getD 1 0 :=
    segAt_getD B (u32le v) p 1 hseg
      (by rw [show (u32le v).length = 4 from rfl]; omega)
  have h2 : B.getD (p + 2) 0 = (u32le v).getD 2 0 :=
    segAt_getD B (u32le v) p 2 hseg
      (by rw [show (u32le v).length = 4 from rfl]; omega)
  have h3 : B.getD (p + 3) 0 = (u32le v).getD 3 0 :=
    segAt_getD B (u32le v) p 3 hseg
      (by rw [show (u32le v).length = 4 from rfl]; omega)
  rw [show (u32le v).getD 0 0 = v % 256 from rfl] at h0
  rw [show (u32le v).getD 1 0 = v / 256 % 256 from rfl] at h1
  rw [show (u32le v).getD 2 0 = v / 256 ^ 2 % 256 from rfl] at h2
  rw [show (u32le v).getD 3 0 = v / 256 ^ 3 % 256 from rfl] at h3
  rw [show B.getD (p + 0) 0 = B.getD p 0 from by rw [Nat.add_zero]] at h0
  unfold unpackU32
  rw [if_pos (by omega), h0, h1, h2, h3]
  refine congrArg Except.ok ?_
  omega

theorem pySlice_seg (B C : List Nat) (p : Nat) (hseg : SegAt B p C) :
    pySlice B p (p + C.length) = C := by
  obtain ⟨A, D, hB, hA⟩ := hseg
  subst hA
  rw [hB]
  unfold pySlice
  rw [show A.length + C.length - A.length = C.length from by omega]
  rw [List.append_assoc, List.drop_left, List.take_left]

theorem readOffsets_seg (B : List Nat) :
    ∀ (sprites : List Sprite) (c p : Nat),
      SegAt B p (offsetsBytes c sprites) →
      (∀ o ∈ offsList c sprites, o < 2 ^ 32) →
      readOffsets B sprites.length p =
        .ok (offsList c sprites, p + 4 * sprites.length) := by
  intro sprites
  induction sprites with
  | nil =>
    intro c p _ _
    rw [show ([] : List Sprite).length = 0 from rfl]
    rw [show offsList c ([] : List Sprite) = [] from rfl]
    rw [show readOffsets B 0 p = .ok ([], p) from rfl]
    rw [show p + 4 * 0 = p from rfl]
  | cons sp rest ih =>
    intro c p hseg hlt
    have hconsL : offsList c (sp :: rest) =
        c :: offsList (c + 2 + sp.pixel_data.length) rest := rfl
    rw [show offsetsBytes c (sp :: rest) =
      u32le c ++ offsetsBytes (c + 2 + sp.pixel_data.length) rest
      from rfl] at hseg
    have h1 := segAt_append_left _ _ _ _ hseg
    have h2 := segAt_append_right _ _ _ _ hseg
    rw [show (u32le c).length = 4 from rfl] at h2
    rw [show (sp :: rest).length = rest.length + 1 from rfl]
    rw [show readOffsets B (rest.length + 1) p =
      (unpackU32 B p >>= fun offset =>
        readOffsets B rest.length (p + 4) >>= fun r =>
        .ok (offset :: r.1, r.2)) from rfl]
    rw [unpackU32_seg B p c h1
      (hlt c (by rw [hconsL]; exact List.mem_cons_self _ _)), ok_bind]
    rw [ih (c + 2 + sp.pixel_data.length) (p + 4) h2
      (fun o ho => hlt o (by rw [hconsL]; exact List.mem_cons_of_mem _ ho)),
      ok_bind]
    rw [hconsL]
    dsimp only
    rw [show p + 4 + 4 * rest.length = p + 4 * (rest.length + 1) from by omega]

theorem readSprites_seg (B : List Nat) :
    ∀ (sprites : List Sprite) (c : Nat),
      SegAt B c (dataBytes sprites) →
      (∀ sp ∈ sprites, sp.pixel_data.length < 2 ^ 16) →
      readSprites B (offsList c sprites) = .ok sprites := by
  intro sprites
  induction sprites with
  | nil => intro c _ _; rfl
  | cons sp rest ih =>
    intro c hseg hlen
    rw [show dataBytes (sp :: rest) =
      u16le sp.pixel_data.length ++ sp.pixel_data ++ dataBytes rest
      from rfl] at hseg
    have h12 := segAt_append_left _ _ _ _ hseg
    have h3 := segAt_append_right _ _ _ _ hseg
    have h1 := segAt_append_left _ _ _ _ h12
    have h2 := segAt_append_right _ _ _ _ h12
    rw [show (u16le sp.pixel_data.length).length = 2 from rfl] at h2
    rw [show (u16le sp.pixel_data.length ++ sp.pixel_data).length =
      2 + sp.pixel_data.length from by
      rw [List.length_append,
        show (u16le sp.pixel_data.length).length = 2 from rfl]] at h3
    rw [show offsList c (sp :: rest) =
      c :: offsList (c + 2 + sp.pixel_data.length) rest from rfl]
    rw [show readSprites B
        (c :: offsList (c + 2 + sp.pixel_data.length) rest) =
      (unpackU16 B c >>= fun sprite_size =>
        readSprites B (offsList (c + 2 + sp.pixel_data.length) rest) >>=
          fun tail =>
        .ok (⟨pySlice B (c + 2) (c + 2 + sprite_size)⟩ :: tail)) from rfl]
    rw [unpackU16_seg B c sp.pixel_data.length h1 (hlen sp (by simp)),
      ok_bind]
    rw [ih (c + 2 + sp.pixel_data.length)
      (by rw [show c + 2 + sp.pixel_data.length =
          c + (2 + sp.pixel_data.length) from by omega]
          exact h3)
      (fun q hq => hlen q (List.mem_cons_of_mem _ hq)), ok_bind]
    rw [pySlice_seg B sp.pixel_data (c + 2) h2]

theorem parseImage_seg (B : List Nat) (img : PicImage) (c p : Nat)
    (hhdr : SegAt B p ([img.width, img.height, img.bg_color.r,
      img.bg_color.g, img.bg_color.b] ++ offsetsBytes c img.sprites))
    (hdata : SegAt B c (dataBytes img.sprites))
    (hns : img.sprites.length = img.width * img.height)
    (holt : ∀ o ∈ offsList c img.sprites, o < 2 ^ 32)
    (hlen : ∀ sp ∈ img.sprites, sp.pixel_data.length < 2 ^ 16) :
    parseImage B p =
      .ok (⟨img.width, img.height, img.bg_color, img.sprites, none, false⟩,
        p + 5 + 4 * img.sprites.length) := by
  rw [show [img.width, img.height, img.bg_color.r, img.bg_color.g,
      img.bg_color.b] ++ offsetsBytes c img.sprites =
    [img.width] ++ ([img.height] ++ ([img.bg_color.r] ++ ([img.bg_color.g] ++
      ([img.bg_color.b] ++ offsetsBytes c img.sprites)))) from rfl] at hhdr
  have hw := segAt_append_left _ _ _ _ hhdr
  have t1 := segAt_append_right _ _ _ _ hhdr
  rw [show ([img.width] : List Nat).length = 1 from rfl] at t1
  have hh := segAt_append_left _ _ _ _ t1
  have t2 := segAt_append_right _ _ _ _ t1
  rw [show ([img.height] : List Nat).length = 1 from rfl] at t2
  rw [show p + 1 + 1 = p + 2 from by omega] at t2
  have hr := segAt_append_left _ _ _ _ t2
  have t3 := segAt_append_right _ _ _ _ t2
  rw [show ([img.bg_color.r] : List Nat).length = 1 from rfl] at t3
  rw [show p + 2 + 1 = p + 3 from by omega] at t3
  have hg := segAt_append_left _ _ _ _ t3
  have t4 := segAt_append_right _ _ _ _ t3
  rw [show ([img.bg_color.g] : List Nat).length = 1 from rfl] at t4
  rw [show p + 3 + 1 = p + 4 from by omega] at t4
  have hb := segAt_append_left _ _ _ _ t4
  have t5 := segAt_append_right _ _ _ _ t4
  rw [show ([img.bg_color.b] : List Nat).length = 1 from rfl] at t5
  rw [show p + 4 + 1 = p + 5 from by omega] at t5
  rw [show parseImage B p =
    (getItem B p >>= fun width =>
      getItem B (p + 1) >>= fun height =>
      getItem B (p + 2) >>= fun bg_r =>
      getItem B (p + 3) >>= fun bg_g =>
      getItem B (p + 4) >>= fun bg_b =>
      readOffsets B (width * height) (p + 5) >>= fun offs =>
      readSprites B offs.1 >>= fun sprites =>
      .ok (⟨width, height, ⟨bg_r, bg_g, bg_b⟩, sprites, none, false⟩, offs.2))
    from rfl]
  rw [getItem_seg B p img.width hw, ok_bind,
    getItem_seg B (p + 1) img.height hh, ok_bind,
    getItem_seg B (p + 2) img.bg_color.r hr, ok_bind,
    getItem_seg B (p + 3) img.bg_color.g hg, ok_bind,
    getItem_seg B (p + 4) img.bg_color.b hb, ok_bind]
  rw [show img.width * img.height = img.sprites.length from hns.symm]
  rw [readOffsets_seg B img.sprites c (p + 5) t5 holt, ok_bind]
  dsimp only
  rw [readSprites_seg B img.sprites c hdata hlen, ok_bind]

theorem parseImages_seg (B : List Nat) :
    ∀ (imgs : List PicImage) (c p : Nat),
      SegAt B p (headersBytes c imgs) →
      SegAt B c (allDataBytes imgs) →
      (∀ img ∈ imgs, img.sprites.length = img.width * img.height ∧
        ∀ sp ∈ img.sprites, sp.pixel_data.length < 2 ^ 16) →
      (∀ o ∈ allOffs c imgs, o < 2 ^ 32) →
      parseImages B imgs.length p =
        .ok (imgs.map (fun i =>
          ⟨i.width, i.height, i.bg_color, i.sprites, none, false⟩)) := by
  intro imgs
  induction imgs with
  | nil => intro c p _ _ _ _; rfl
  | cons img rest ih =>
    intro c p hhdr hdata hwf holt
    have hconsA : allOffs c (img :: rest) =
        offsList c img.sprites ++
          allOffs (c + spriteDataSize img.sprites) rest := rfl
    rw [show headersBytes c (img :: rest) =
      ([img.width, img.height, img.bg_color.r, img.bg_color.g,
        img.bg_color.b] ++ offsetsBytes c img.sprites) ++
        headersBytes (c + spriteDataSize img.sprites) rest from rfl] at hhdr
    rw [show allDataBytes (img :: rest) =
      dataBytes img.sprites ++ allDataBytes rest from rfl] at hdata
    have hhdr1 := segAt_append_left _ _ _ _ hhdr
    have hhdr2 := segAt_append_right _ _ _ _ hhdr
    have hd1 := segAt_append_left _ _ _ _ hdata
    have hd2 := segAt_append_right _ _ _ _ hdata
    obtain ⟨hns, hlens⟩ := hwf img (by simp)
    rw [show ([img.width, img.height, img.bg_color.r, img.bg_color.g,
        img.bg_color.b] ++ offsetsBytes c img.sprites).length =
      5 + 4 * img.sprites.length from by
      simp only [List.length_append, List.length_cons, List.length_nil,
        offsetsBytes_length]] at hhdr2
    rw [dataBytes_length] at hd2
    rw [show (img :: rest).length = rest.length + 1 from rfl]
    rw [show parseImages B (rest.length + 1) p =
      (parseImage B p >>= fun r =>
        parseImages B rest.length r.2 >>= fun rs =>
        .ok (r.1 :: rs)) from rfl]
    rw [parseImage_seg B img c p hhdr1 hd1 hns
      (fun o ho => holt o
        (by rw [hconsA]; exact List.mem_append_left _ ho)) hlens, ok_bind]
    dsimp only
    rw [show p + 5 + 4 * img.sprites.length =
      p + (5 + 4 * img.sprites.length) from by omega]
    rw [ih (c + spriteDataSize img.sprites) (p + (5 + 4 * img.sprites.length))
      hhdr2 hd2 (fun q hq => hwf q (List.mem_cons_of_mem _ hq))
      (fun o ho => holt o
        (by rw [hconsA]; exact List.mem_append_right _ ho)), ok_bind]
    rfl

/-- C2: for an archive whose signature fits a `u32` and is not the legacy
sentinel, whose picture count fits a `u16`, whose pictures each have byte
width/height/background, exactly `width * height` tiles with `u16`
payload lengths, and whose declared total size fits a `u32`, parsing the
bytes `_compile` produces yields a logically equal archive (same
signature, pointwise same width, height, background and tile payloads in
raster order). -/
theorem c2_parse_of_serialize (pic : Pic)
    (hsig : pic.signature < 2 ^ 32)
    (hold : pic.signature ≠ OLD_SIGNATURE)
    (hcount : pic.images.length < 2 ^ 16)
    (htot : calculateTotalSize pic ≤ 2 ^ 32)
    (hwf : ∀ img ∈ pic.images, img.width < 256 ∧ img.height < 256 ∧
      img.bg_color.r < 256 ∧ img.bg_color.g < 256 ∧ img.bg_color.b < 256 ∧
      img.sprites.length = img.width * img.height ∧
      ∀ sp ∈ img.sprites, sp.pixel_data.length < 2 ^ 16) :
    ∃ buf pic', compile pic = .ok buf ∧ parse buf = .ok pic' ∧
      picEq pic pic' := by
  refine ⟨layoutBytes pic,
    ⟨pic.signature, pic.images.map (fun i =>
      ⟨i.width, i.height, i.bg_color, i.sprites, none, false⟩)⟩,
    compile_eq_layout pic hsig hcount (offs_of_htot pic htot) hwf, ?_, ?_⟩
  · have hnsAll : ∀ img ∈ pic.images,
        img.sprites.length = img.width * img.height :=
      fun q hq => (hwf q hq).2.2.2.2.2.1
    have hHlen : (headersBytes (headerSize pic) pic.images).length =
        (pic.images.map (fun i => 5 + i.num_sprites * 4)).sum :=
      headersBytes_length pic.images hnsAll (headerSize pic)
    have hblen : (layoutBytes pic).length =
        6 + (pic.images.map (fun i => 5 + i.num_sprites * 4)).sum +
          (pic.images.map (fun i => spriteDataSize i.sprites)).sum := by
      unfold layoutBytes
      simp only [List.length_append]
      rw [hHlen, allDataBytes_length,
        show (u32le pic.signature).length = 4 from rfl,
        show (u16le pic.num_images).length = 2 from rfl]
    have hseg0 : SegAt (layoutBytes pic) 0 (u32le pic.signature) :=
      ⟨[], u16le pic.num_images ++ headersBytes (headerSize pic) pic.images ++
        allDataBytes pic.images,
        by unfold layoutBytes; simp [List.append_assoc], rfl⟩
    have hseg4 : SegAt (layoutBytes pic) 4 (u16le pic.num_images) :=
      ⟨u32le pic.signature, headersBytes (headerSize pic) pic.images ++
        allDataBytes pic.images,
        by unfold layoutBytes; simp [List.append_assoc], rfl⟩
    have hseg6 : SegAt (layoutBytes pic) 6
        (headersBytes (headerSize pic) pic.images) :=
      ⟨u32le pic.signature ++ u16le pic.num_images, allDataBytes pic.images,
        by unfold layoutBytes; simp [List.append_assoc], rfl⟩
    have hsegD : SegAt (layoutBytes pic) (headerSize pic)
        (allDataBytes pic.images) :=
      ⟨u32le pic.signature ++ u16le pic.num_images ++
        headersBytes (headerSize pic) pic.images, [],
        by unfold layoutBytes; simp [List.append_assoc],
        by
          simp only [List.length_append]
          rw [hHlen, show (u32le pic.signature).length = 4 from rfl,
            show (u16le pic.num_images).length = 2 from rfl, headerSize_eq]⟩
    unfold parse
    rw [if_neg (by rw [hblen]; omega)]
    rw [unpackU32_seg _ 0 pic.signature hseg0 hsig, ok_bind]
    rw [if_neg hold]
    rw [unpackU16_seg _ 4 pic.num_images hseg4
      (by rw [show pic.num_images = pic.images.length from rfl]
          exact hcount), ok_bind]
    rw [show pic.num_images = pic.images.length from rfl]
    rw [parseImages_seg (layoutBytes pic) pic.images (headerSize pic) 6
      hseg6 hsegD
      (fun q hq => ⟨(hwf q hq).2.2.2.2.2.1, (hwf q hq).2.2.2.2.2.2⟩)
      (offs_of_htot pic htot), ok_bind]
  · have hfa : ∀ (l : List PicImage), List.Forall₂ imgEq l
        (l.map (fun i => (⟨i.width, i.height, i.bg_color, i.sprites, none,
          false⟩ : PicImage))) := by
      intro l
      induction l with
      | nil => exact List.Forall₂.nil
      | cons a l ihl => exact List.Forall₂.cons ⟨rfl, rfl, rfl, rfl⟩ ihl
    exact ⟨rfl, hfa pic.images⟩

theorem c2_parse_of_serialize_witness :
    ∃ buf pic', compile picA = .ok buf ∧ parse buf = .ok pic' ∧
      picEq picA pic' :=
  c2_parse_of_serialize picA (by decide) (by decide) (by decide) (by decide)
    (by decide)

theorem c8_canonical_layout_witness :
    [7, 0, 0, 0, 1, 0, 1, 1, 255, 0, 255, 15, 0, 0, 0, 2, 0, 9, 8] =
      u32le picA.signature ++ u16le picA.num_images ++
        headersBytes (headerSize picA) picA.images ++ allDataBytes picA.images :=
  c8_canonical_layout picA _ (by decide) (by decide)

theorem flatMap_range_map_length {α : Type} (w : Nat) (f : Nat → Nat → α) :
    ∀ h : Nat,
      ((List.range h).flatMap fun row =>
        (List.range w).map fun col => f row col).length = w * h := by
  intro h
  induction h with
  | zero => rfl
  | succ n ih =>
    rw [List.range_succ, List.flatMap_append]
    simp only [List.flatMap_cons, List.flatMap_nil, List.append_nil,
      List.length_append, List.length_map, List.length_range, ih]
    ring

theorem flatMap_range_map_getD {α : Type} (w : Nat) (f : Nat → Nat → α)
    (d : α) : ∀ (h j : Nat), j < w * h →
      ((List.range h).flatMap fun row =>
        (List.range w).map fun col => f row col).getD j d =
        f (j / w) (j % w) := by
  intro h
  induction h with
  | zero => intro j hj; omega
  | succ n ih =>
    intro j hj
    rw [show w * (n + 1) = w * n + w from by ring] at hj
    rw [List.range_succ, List.flatMap_append]
    simp only [List.flatMap_cons, List.flatMap_nil, List.append_nil]
    by_cases hcase : j < w * n
    · rw [List.getD_append _ _ _ _
        (by rw [flatMap_range_map_length]; exact hcase)]
      exact ih j hcase
    · have hwpos : 0 < w := by omega
      have hr : j - w * n < w := by omega
      rw [List.getD_append_right _ _ _ _
        (by rw [flatMap_range_map_length]; omega)]
      rw [flatMap_range_map_length]
      rw [List.getD_eq_getElem _ _
        (by rw [List.length_map, List.length_range]; exact hr)]
      rw [List.getElem_map, List.getElem_range]
      have hdiv : j / w = n := by
        conv_lhs => rw [show j = (j - w * n) + w * n from by omega]
        rw [Nat.add_mul_div_left _ _ hwpos, Nat.div_eq_of_lt hr]
        omega
      have hmod : j % w = j - w * n := by
        conv_lhs => rw [show j = (j - w * n) + w * n from by omega]
        rw [Nat.add_mul_mod_self_left, Nat.mod_eq_of_lt hr]
      rw [hdiv, hmod]

/-- C10: `update_image_from_pil` rejects a source image whose dimensions
differ from the picture's pixel dimensions with a `ValueError` raised
before any mutation (the returned error carries no modified picture),
and otherwise replaces the tile list with exactly `width * height`
tiles, tile `j` being the re-encoding of the 32×32 region at column
`j % width`, row `j / width` of the source against the picture's
background color, clears the cached rendering and sets the modified
flag, preserving width, height and background. -/
theorem c10_update_from_pil (img : PicImage) (pil : PILImage) :
    ((pil.width, pil.height) ≠ (img.pixel_width, img.pixel_height) →
      update_image_from_pil img pil = .error .valueError) ∧
    ((pil.width, pil.height) = (img.pixel_width, img.pixel_height) →
      ∃ img', update_image_from_pil img pil = .ok img' ∧
        img'.width = img.width ∧ img'.height = img.height ∧
        img'.bg_color = img.bg_color ∧ img'.cached_image = none ∧
        img'.modified = true ∧
        img'.sprites.length = img.width * img.height ∧
        ∀ j, j < img.width * img.height →
          img'.sprites.getD j ⟨[]⟩ =
            encode_sprite
              (pil.crop (j % img.width * SPRITE_SIZE)
                (j / img.width * SPRITE_SIZE)) img.bg_color) := by
  constructor
  · intro hne
    unfold update_image_from_pil
    rw [if_pos hne]
  · intro heq
    unfold update_image_from_pil
    rw [if_neg (not_not_intro heq)]
    refine ⟨_, rfl, rfl, rfl, rfl, rfl, rfl, ?_, ?_⟩
    · show ((List.range img.height).flatMap fun row =>
        (List.range img.width).map fun col =>
          encode_sprite (pil.crop (col * SPRITE_SIZE) (row * SPRITE_SIZE))
            img.bg_color).length = img.width * img.height
      rw [flatMap_range_map_length img.width
        (fun row col => encode_sprite
          (pil.crop (col * SPRITE_SIZE) (row * SPRITE_SIZE)) img.bg_color)
        img.height]
    · intro j hj
      show ((List.range img.height).flatMap fun row =>
        (List.range img.width).map fun col =>
          encode_sprite (pil.crop (col * SPRITE_SIZE) (row * SPRITE_SIZE))
            img.bg_color).getD j ⟨[]⟩ =
        encode_sprite
          (pil.crop (j % img.width * SPRITE_SIZE)
            (j / img.width * SPRITE_SIZE)) img.bg_color
      rw [flatMap_range_map_getD img.width
        (fun row col => encode_sprite
          (pil.crop (col * SPRITE_SIZE) (row * SPRITE_SIZE)) img.bg_color)
        ⟨[]⟩ img.height j hj]

theorem c10_update_from_pil_witness :
    ∃ img', update_image_from_pil
        ⟨1, 1, ⟨255, 0, 255⟩, [⟨[1, 2, 3]⟩], none, false⟩
        ⟨32, 32, fun _ _ => ⟨0, 0, 0, 0⟩⟩ = .ok img' ∧
      img'.sprites.length = 1 := by
  obtain ⟨img', h1, _, _, _, _, _, h7, _⟩ :=
    (c10_update_from_pil ⟨1, 1, ⟨255, 0, 255⟩, [⟨[1, 2, 3]⟩], none, false⟩
      ⟨32, 32, fun _ _ => ⟨0, 0, 0, 0⟩⟩).2 (by decide)
  exact ⟨img', h1, h7⟩

end PicEditor
